import Mathlib

/-! # Juego_2D: the snake game of `src/main.js`

A shallow embedding of the game core of `src/main.js` (grid helpers, food
lifecycle, obstacle generator, level computation, the discrete step and the
input handlers) and theorems about it.

Modelling conventions.

* The single mutable record `state` of the source is the structure `State`;
  every function that mutates it is a function from the old record to the
  new one.
* `Math.random()` is an external source.  One call of `randomCell()` consumes
  one element of the *draw stream*: the pair of integers
  `((Math.random()*GRID)|0, (Math.random()*GRID)|0)`, each of which lies in
  `0 .. GRID-1` because `Math.random()` lies in `[0,1)`.  A function that draws
  takes the stream of the draws still to come and returns the rest of it.
* The rejection loops `do { c = randomCell(); } while (...)` have no bound in
  the source.  On a finite prefix of the draw stream they either find a cell
  or use the prefix up; the second outcome is the fault `Fault.outOfDraws`
  (the loop is still running when the given draws are exhausted).  The loop
  `while (accumulator >= stepTime)` never ends when the subtraction no longer
  changes the accumulator; this is the fault `Fault.loopsForever`.
* Reading `head.x` when `state.snake` is empty throws a `TypeError` in the
  source; this is the fault `Fault.typeError`.
* Grid coordinates and levels are `Int`; `score` and `grow`, which the source
  only ever sets to `0`, increments, and decrements under the guard
  `grow > 0`, are `Nat`.
* Times (`ts`, `lastTime`, `dt`, `accumulator`, `stepTime`, `foodTimer`) are
  IEEE 754 binary64 numbers in the source.  A finite binary64 number is the
  rational it denotes, and every arithmetic operation of the source on times
  is the exact operation followed by `toDouble`, the rounding to the nearest
  binary64 number.  The upper bound `2^1024` of the format is left out: the
  model is exact as long as no result overflows.
* The DOM side effects (`updateHUD`, `drawTint`, `showOverlay`,
  `hideOverlay`, `render`) do not write the game state and are left out.
-/

namespace Juego2D

/-! ## Configuration (main.js lines 15-26) -/

/-- Number of cells per row and per column. -/
def GRID : Nat := 20

/-- Growth credited for each food eaten. -/
def GROW_PER_FOOD : Nat := 1

/-- Speeds per level, in cells per second. -/
def SPEEDS : List Nat := [8, 8, 10, 10, 14, 14, 16, 16, 18, 20]

/-- Lifetime of the food at a level: `Math.max(3, 9 - level)`. -/
def foodTTL (level : Int) : Int := max 3 (9 - level)

/-- Number of obstacles at a level: `Math.min(level - 1, 12)`. -/
def obstaclesFor (level : Int) : Int := min (level - 1) 12

/-! ## State (main.js lines 53-56, 104-112) -/

/-- A grid cell `{x, y}`. -/
structure Cell where
  x : Int
  y : Int
deriving DecidableEq, Repr

/-- A heading `{x, y}`. -/
structure Dir where
  x : Int
  y : Int
deriving DecidableEq, Repr

/-- The game record `state`. -/
structure State where
  dir : Dir
  nextDir : Dir
  snake : List Cell
  grow : Nat
  food : Cell
  foodTTL : Int
  foodTimer : ℚ
  score : Nat
  level : Int
  obstacles : List Cell
  playing : Bool
  over : Bool
  paused : Bool
deriving DecidableEq

/-- One call of `randomCell()`: the two truncated products it computes. -/
abbrev Draw := Fin GRID × Fin GRID

/-- The ways a call can fail to return. -/
inductive Fault where
  | typeError
  | outOfDraws
  | loopsForever
deriving DecidableEq, Repr

/-- Result of a function that may draw random cells: the value and the draws
left, or a fault. -/
abbrev Outcome (α : Type) := Except Fault (α × List Draw)

/-! ## Utilities (main.js lines 59-67) -/

/-- Function `randomCell()` on the draw it consumes. -/
def randomCell (d : Draw) : Cell := { x := (d.1.val : Int), y := (d.2.val : Int) }

/-- Function `cellsEqual(a,b)`. -/
def cellsEqual (a b : Cell) : Bool := a.x == b.x && a.y == b.y

/-- Function `cellInSnake(c)`. -/
def cellInSnake (s : State) (c : Cell) : Bool := s.snake.any (fun q => cellsEqual q c)

/-- Function `cellInObstacles(c)`. -/
def cellInObstacles (s : State) (c : Cell) : Bool := s.obstacles.any (fun o => cellsEqual o c)

/-- Function `freeRandomCell()`: draw until the cell is on neither the snake
nor an obstacle. -/
def freeRandomCell (s : State) : List Draw → Outcome Cell
  | [] => .error .outOfDraws
  | d :: rest =>
    let c := randomCell d
    if cellInSnake s c || cellInObstacles s c then freeRandomCell s rest
    else .ok (c, rest)

/-! ## Numbers (IEEE 754 binary64) -/

/-- Rounding of a rational to the nearest integer, a tie going to the even
one. -/
def roundHalfEven (x : ℚ) : Int :=
  let f := ⌊x⌋
  let r := x - f
  if r < 1 / 2 then f
  else if 1 / 2 < r then f + 1
  else if f % 2 = 0 then f else f + 1

/-- The exponent of the unit in the last place for a result `q`: 52 below the
binary exponent of `q` (significands have 53 bits), and not below `-1074`, the
exponent of the smallest subnormal number. -/
def ulpExp (q : ℚ) : Int := max (Int.log 2 |q| - 52) (-1074)

/-- The binary64 number that the exact result `q` of an operation is rounded
to (round to nearest, ties to even): the nearest multiple of the unit in the
last place. -/
def toDouble (q : ℚ) : ℚ :=
  (roundHalfEven (q / (2 : ℚ) ^ ulpExp q) : ℚ) * (2 : ℚ) ^ ulpExp q

/-! ## Food (main.js lines 70-72) -/

/-- Function `regenFoodTimer()`. -/
def regenFoodTimer (s : State) : State :=
  { s with foodTTL := foodTTL s.level, foodTimer := ((foodTTL s.level : Int) : ℚ) }

/-- Function `placeFood()`. -/
def placeFood (s : State) (rng : List Draw) : Outcome State :=
  match freeRandomCell s rng with
  | .error e => .error e
  | .ok (c, rest) => .ok (regenFoodTimer { s with food := c }, rest)

/-- Function `tickFoodTimer(dt)`. -/
def tickFoodTimer (dt : ℚ) (s : State) (rng : List Draw) : Outcome State :=
  let s1 := { s with foodTimer := toDouble (s.foodTimer - dt) }
  if s1.foodTimer ≤ 0 then placeFood s1 rng else .ok (s1, rng)

/-! ## Obstacles (main.js lines 75-84) -/

/-- The inner `do ... while` of `buildObstacles`: draw until the cell is not
on the snake, is not the food and is not among the cells chosen so far.
(`state.food` is an object whenever this runs, so `state.food && ...` is the
comparison itself.) -/
def pickObstacle (s : State) (obs : List Cell) : List Draw → Outcome Cell
  | [] => .error .outOfDraws
  | d :: rest =>
    let c := randomCell d
    if cellInSnake s c || cellsEqual c s.food || obs.any (fun o => cellsEqual o c) then
      pickObstacle s obs rest
    else .ok (c, rest)

/-- The `for` loop of `buildObstacles` with `k` iterations left and `obs`
pushed so far. -/
def buildLoop (s : State) : Nat → List Cell → List Draw → Outcome (List Cell)
  | 0, obs, rng => .ok (obs, rng)
  | k + 1, obs, rng =>
    match pickObstacle s obs rng with
    | .error e => .error e
    | .ok (c, rest) => buildLoop s k (obs ++ [c]) rest

/-- Function `buildObstacles(level)`: the loop `for (let i=0;i<n;i++)` runs
`n` times when `n` is positive and not at all otherwise. -/
def buildObstacles (s : State) (level : Int) (rng : List Draw) : Outcome (List Cell) :=
  buildLoop s (obstaclesFor level).toNat [] rng

/-! ## Levels (main.js lines 87-93) -/

/-- The value `newLevel` of `levelUpIfNeeded`:
`Math.min(1 + Math.floor(score/30), SPEEDS.length)`. -/
def newLevel (score : Nat) : Int := min (1 + ((score / 30 : Nat) : Int)) (SPEEDS.length : Int)

/-- Function `levelUpIfNeeded()`. -/
def levelUpIfNeeded (s : State) (rng : List Draw) : Outcome State :=
  if newLevel s.score ≠ s.level then
    let s1 := { s with level := newLevel s.score }
    match buildObstacles s1 s1.level rng with
    | .error e => .error e
    | .ok (obs, rest) => .ok ({ s1 with obstacles := obs }, rest)
  else .ok (s, rng)

/-! ## New game (main.js lines 103-118) -/

/-- The record literal that `newGame` assigns to `state`. -/
def initialRecord : State :=
  { dir := ⟨1, 0⟩, nextDir := ⟨1, 0⟩,
    snake := [⟨5, 10⟩, ⟨4, 10⟩, ⟨3, 10⟩],
    grow := 0,
    food := ⟨0, 0⟩, foodTTL := 8, foodTimer := 8,
    score := 0, level := 1,
    obstacles := [],
    playing := true, over := false, paused := false }

/-- Function `newGame()`. -/
def newGame (rng : List Draw) : Outcome State :=
  let s := initialRecord
  match buildObstacles s s.level rng with
  | .error e => .error e
  | .ok (obs, rest) => placeFood { s with obstacles := obs } rest

/-! ## Special states (main.js lines 153-164) -/

/-- Function `gameOver()`. -/
def gameOver (s : State) : State := { s with playing := false, over := true }

/-- Function `togglePause(force)`; `force = none` is a call without a boolean
argument. -/
def togglePause (force : Option Bool) (s : State) : State :=
  if s.over then s
  else
    let willPause := match force with
      | some b => b
      | none => !s.paused
    { s with paused := willPause }

/-! ## Movement (main.js lines 121-150) -/

/-- Lines 123-124: the reversal guard. -/
def commitDir (s : State) : State :=
  let nd := s.nextDir
  if !(nd.x == -s.dir.x && nd.y == -s.dir.y) then { s with dir := nd } else s

/-- Line 130: the wall test on the candidate coordinates. -/
def hitsWall (nx ny : Int) : Bool :=
  decide (nx < 0) || decide (ny < 0) || decide (nx ≥ (GRID : Int)) || decide (ny ≥ (GRID : Int))

/-- Line 134: the obstacle and body test. -/
def hitsObstacleOrBody (s : State) (newHead : Cell) : Bool :=
  cellInObstacles s newHead || s.snake.any (fun q => cellsEqual q newHead)

/-- Lines 140-146: eating, run when the new head is on the food. -/
def eat (s : State) (rng : List Draw) : Outcome State :=
  let s1 := { s with score := s.score + 10 }
  let s2 := { s1 with grow := s1.grow + GROW_PER_FOOD }
  match levelUpIfNeeded s2 rng with
  | .error e => .error e
  | .ok (s3, rest) => placeFood s3 rest

/-- Line 149: grow or move the tail. -/
def growOrMoveTail (s : State) : State :=
  if s.grow > 0 then { s with grow := s.grow - 1 } else { s with snake := s.snake.dropLast }

/-- Function `step()`. -/
def step (s0 : State) (rng : List Draw) : Outcome State :=
  let s := commitDir s0
  match s.snake with
  | [] => .error .typeError
  | head :: _ =>
    let nx := head.x + s.dir.x
    let ny := head.y + s.dir.y
    if hitsWall nx ny then .ok (gameOver s, rng)
    else
      let newHead : Cell := { x := nx, y := ny }
      if hitsObstacleOrBody s newHead then .ok (gameOver s, rng)
      else
        let s1 := { s with snake := newHead :: s.snake }
        if cellsEqual newHead s1.food then
          match eat s1 rng with
          | .error e => .error e
          | .ok (s2, rest) => .ok (growOrMoveTail s2, rest)
        else .ok (growOrMoveTail s1, rng)

/-! ## Inputs (main.js lines 236-247) -/

/-- The keys the `keydown` handler distinguishes, after `toLowerCase()`:
`up` is `arrowup` or `w`, `down` is `arrowdown` or `s`, `left` is `arrowleft`
or `a`, `right` is `arrowright` or `d`, `other` is any other key. -/
inductive Key where
  | up
  | down
  | left
  | right
  | p
  | r
  | other
deriving DecidableEq, Repr

/-- The `keydown` handler. -/
def keydown (k : Key) (s : State) (rng : List Draw) : Outcome State :=
  match k with
  | .up => .ok ({ s with nextDir := ⟨0, -1⟩ }, rng)
  | .down => .ok ({ s with nextDir := ⟨0, 1⟩ }, rng)
  | .left => .ok ({ s with nextDir := ⟨-1, 0⟩ }, rng)
  | .right => .ok ({ s with nextDir := ⟨1, 0⟩ }, rng)
  | .p => .ok (togglePause none s, rng)
  | .r => newGame rng
  | .other => .ok (s, rng)

/-! ## Main loop (main.js lines 54-56, 220-233) -/

/-- The module variables `state`, `lastTime` and `accumulator`, together with
`stepCalls`, a count of the calls of `step()` that the loop has made.  The
count is not a variable of the source: no function reads it, it only records
the calls.  (`state` is never `null` in a frame: line 259 calls `newGame()`
before the first frame is requested, so the test `if (!state) return` of line
221 never fires.) -/
structure Driver where
  state : State
  lastTime : ℚ
  accumulator : ℚ
  stepCalls : Nat
deriving DecidableEq

/-- The lookup `SPEEDS[Math.min(level-1, SPEEDS.length-1)]` of lines 97 and
225; `none` is the `undefined` that an index below zero gives. -/
def speedFor (level : Int) : Option Nat :=
  let i : Int := min (level - 1) ((SPEEDS.length : Int) - 1)
  if i < 0 then none else SPEEDS[i.toNat]?

/-- The value `stepTime = 1/stepPerSec` of line 226 when it is a number one
can reach: `none` stands for `NaN` (`stepPerSec` undefined) and for `Infinity`
(`stepPerSec` zero), for both of which `accumulator >= stepTime` is false. -/
def stepTimeOf (stepPerSec : Option Nat) : Option ℚ :=
  match stepPerSec with
  | none => none
  | some v => if v = 0 then none else some (toDouble (1 / (v : ℚ)))

/-- The loop `while (accumulator >= stepTime){ step(); accumulator -= stepTime; }`
of line 227 for a positive `stepTime`, which is what `stepTimeOf` gives.  The
rounded difference is never above the accumulator; when it is not below it,
the accumulator keeps its value, the test stays true and the loop of the
source never ends. -/
def whileSteps (stepTime : ℚ) (g : Driver) (rng : List Draw) : Outcome Driver :=
  if _h : 0 < stepTime ∧ g.accumulator ≥ stepTime then
    match step g.state rng with
    | .error e => .error e
    | .ok (s, rest) =>
      if _hp : toDouble (g.accumulator - stepTime) < g.accumulator then
        whileSteps stepTime
          { g with state := s, accumulator := toDouble (g.accumulator - stepTime),
                   stepCalls := g.stepCalls + 1 } rest
      else .error .loopsForever
  else .ok (g, rng)
termination_by (⌈g.accumulator * (2 : ℚ) ^ (1074 : ℕ)⌉).toNat
decreasing_by
  have hexp : (-1074 : Int) ≤ ulpExp (g.accumulator - stepTime) := le_max_right _ _
  obtain ⟨n, hn⟩ := Int.eq_ofNat_of_zero_le (sub_nonneg.2 hexp)
  have he : ulpExp (g.accumulator - stepTime) = (n : Int) + (-1074) := by omega
  have hgrid : toDouble (g.accumulator - stepTime) * (2 : ℚ) ^ (1074 : ℕ) =
      ((roundHalfEven ((g.accumulator - stepTime) /
        (2 : ℚ) ^ ulpExp (g.accumulator - stepTime)) * 2 ^ n : Int) : ℚ) := by
    unfold toDouble
    rw [he, zpow_add₀ (two_ne_zero), mul_assoc, mul_assoc]
    push_cast
    congr 1
    have h1 : (2 : ℚ) ^ (-1074 : Int) * (2 : ℚ) ^ (1074 : ℕ) = 1 := by
      rw [zpow_neg, zpow_ofNat]
      exact inv_mul_cancel₀ (by positivity)
    rw [h1, mul_one, zpow_natCast]
  show (⌈toDouble (g.accumulator - stepTime) * (2 : ℚ) ^ (1074 : ℕ)⌉).toNat <
    (⌈g.accumulator * (2 : ℚ) ^ (1074 : ℕ)⌉).toNat
  rw [hgrid, Int.ceil_intCast]
  have hlt : toDouble (g.accumulator - stepTime) * (2 : ℚ) ^ (1074 : ℕ) <
      g.accumulator * (2 : ℚ) ^ (1074 : ℕ) :=
    mul_lt_mul_of_pos_right _hp (by positivity)
  rw [hgrid] at hlt
  have hc := Int.lt_ceil.2 hlt
  have hpos : 0 < g.accumulator := lt_of_lt_of_le _h.1 _h.2
  have hc0 : (0 : Int) < ⌈g.accumulator * (2 : ℚ) ^ (1074 : ℕ)⌉ :=
    Int.ceil_pos.2 (by positivity)
  omega

/-- The elapsed time `dt = (ts - lastTime) / 1000` of line 222, in seconds. -/
def frameDt (ts : ℚ) (g : Driver) : ℚ := toDouble (toDouble (ts - g.lastTime) / 1000)

/-- Lines 225-227: the lookup of the speed, `accumulator += dt`, the step
time and the step loop. -/
def frameSteps (dt : ℚ) (g : Driver) (rng : List Draw) : Outcome Driver :=
  let stepPerSec := speedFor g.state.level
  let g1 := { g with accumulator := toDouble (g.accumulator + dt) }
  match stepTimeOf stepPerSec with
  | none => .ok (g1, rng)
  | some stepTime => whileSteps stepTime g1 rng

/-- Function `loop(ts)`, without `updateHUD()`, `render()` and the request of
the next frame. -/
def loop (ts : ℚ) (g0 : Driver) (rng : List Draw) : Outcome Driver :=
  let dt := frameDt ts g0
  let g := { g0 with lastTime := ts }
  if !g.state.paused && g.state.playing then
    match frameSteps dt g rng with
    | .error e => .error e
    | .ok (g2, rest) =>
      match tickFoodTimer dt g2.state rest with
      | .error e => .error e
      | .ok (s, rest2) => .ok ({ g2 with state := s }, rest2)
  else .ok (g, rng)

/-! ## Reachable states -/

/-- The operations that act on the game record between two observations. -/
inductive Op where
  | step
  | tick (dt : ℚ)
  | togglePause (force : Option Bool)
  | key (k : Key)

/-- Running one operation. -/
def Op.run : Op → State → List Draw → Outcome State
  | .step, s, rng => Juego2D.step s rng
  | .tick dt, s, rng => tickFoodTimer dt s rng
  | .togglePause force, s, rng => .ok (Juego2D.togglePause force s, rng)
  | .key k, s, rng => keydown k s rng

/-- States reachable from `newGame()` by operations that return, whatever the
random draws are. -/
inductive Reachable : State → Prop where
  | init (rng rest : List Draw) (s : State) :
      newGame rng = .ok (s, rest) → Reachable s
  | next (op : Op) (rng rest : List Draw) (s t : State) :
      Reachable s → op.run s rng = .ok (t, rest) → Reachable t

/-! ## Vocabulary of the specification -/

/-- A cell lies in the grid `[0,GRID) × [0,GRID)`. -/
def InGrid (c : Cell) : Prop := 0 ≤ c.x ∧ c.x < (GRID : Int) ∧ 0 ≤ c.y ∧ c.y < (GRID : Int)

/-- The candidate head of a step: the head `head` plus the heading that the
reversal guard commits. -/
def candidate (s : State) (head : Cell) : Cell :=
  { x := head.x + (commitDir s).dir.x, y := head.y + (commitDir s).dir.y }

/-- A candidate head is a collision: outside the grid, on an obstacle, or on
a cell of the current snake. -/
def Collides (s : State) (c : Cell) : Prop := ¬ InGrid c ∨ c ∈ s.obstacles ∨ c ∈ s.snake

/-- The heading `nextDir` is the exact negation of `dir`. -/
def IsReverse (s : State) : Prop := s.nextDir.x = -s.dir.x ∧ s.nextDir.y = -s.dir.y

/-- Snake and obstacles are laid out properly: snake cells distinct and in the
grid, obstacle cells distinct and off the snake. -/
def BoardOK (s : State) : Prop :=
  s.snake.Nodup ∧ (∀ c ∈ s.snake, InGrid c) ∧ s.obstacles.Nodup ∧ ∀ o ∈ s.obstacles, o ∉ s.snake

/-- The food is on neither the snake nor an obstacle. -/
def FoodFree (s : State) : Prop := s.food ∉ s.snake ∧ s.food ∉ s.obstacles

/-- The layout invariant of the game record. -/
def Inv (s : State) : Prop := BoardOK s ∧ FoodFree s

instance instDecidableInGrid (c : Cell) : Decidable (InGrid c) := by
  unfold InGrid
  infer_instance

instance instDecidableCollides (s : State) (c : Cell) : Decidable (Collides s c) := by
  unfold Collides
  infer_instance

instance instDecidableIsReverse (s : State) : Decidable (IsReverse s) := by
  unfold IsReverse
  infer_instance

/-- The two flags agree: `playing` is the negation of `over`. -/
def FlagsOK (s : State) : Prop := s.playing = !s.over

/-- Level, obstacle count and food lifetime are the functions of the score
and of the level that the configuration gives. -/
def LevelOK (s : State) : Prop :=
  s.level = newLevel s.score ∧ s.obstacles.length = (obstaclesFor s.level).toNat ∧
    s.foodTTL = foodTTL s.level

/-- No grow credit is pending, the snake has three cells plus one for each
ten points, and the score is a multiple of ten. -/
def GrowOK (s : State) : Prop :=
  s.grow = 0 ∧ s.snake.length = 3 + s.score / 10 ∧ s.score % 10 = 0

/-- The heading is the head minus the neck. -/
def HeadingIsHeadMinusNeck (s : State) : Prop :=
  ∃ head neck tl, s.snake = head :: neck :: tl ∧
    s.dir = ⟨head.x - neck.x, head.y - neck.y⟩

/-- While the game is not over the heading is the head minus the neck. -/
def HeadingOK (s : State) : Prop := s.over = false → HeadingIsHeadMinusNeck s

/-- The invariant of the counters, flags and heading of the game record. -/
def GameInv (s : State) : Prop := FlagsOK s ∧ LevelOK s ∧ GrowOK s ∧ HeadingOK s

/-- Running a list of operations, each with the draws it may use; `none` when
one of them does not return. -/
def runOps : List (Op × List Draw) → State → Option State
  | [], s => some s
  | (op, rng) :: more, s =>
    match op.run s rng with
    | .error _ => none
    | .ok (t, _) => runOps more t

/-! ## Concrete scenarios -/

/-- The draw that makes `randomCell()` return the cell `(x, y)`. -/
def drawOf (x y : Nat) (hx : x < GRID) (hy : y < GRID) : Draw := (⟨x, hx⟩, ⟨y, hy⟩)

/-- A fresh game whose food was drawn at `(6,10)`, right ahead of the head. -/
def freshAhead : State := { initialRecord with food := ⟨6, 10⟩ }

/-- The game after the snake of `freshAhead` has eaten its first food, the
next food having been drawn at `(7,10)`. -/
def afterFirstFood : State :=
  { initialRecord with
    snake := [⟨6, 10⟩, ⟨5, 10⟩, ⟨4, 10⟩, ⟨3, 10⟩], score := 10, food := ⟨7, 10⟩ }

/-- The game after the second food, the next food drawn at `(8,10)`. -/
def afterSecondFood : State :=
  { initialRecord with
    snake := [⟨7, 10⟩, ⟨6, 10⟩, ⟨5, 10⟩, ⟨4, 10⟩, ⟨3, 10⟩], score := 20, food := ⟨8, 10⟩ }

/-- The game after the third food: level 2, one obstacle drawn at `(0,0)`,
the next food drawn at `(1,1)`. -/
def afterThirdFood : State :=
  { initialRecord with
    snake := [⟨8, 10⟩, ⟨7, 10⟩, ⟨6, 10⟩, ⟨5, 10⟩, ⟨4, 10⟩, ⟨3, 10⟩], score := 30,
    level := 2, obstacles := [⟨0, 0⟩], food := ⟨1, 1⟩, foodTTL := 7, foodTimer := 7 }

/-- The record inside the third eating step, after `score += 10` and before
`levelUpIfNeeded()`: score 30 at level 1. -/
def scoreThirty : State :=
  { initialRecord with
    snake := [⟨8, 10⟩, ⟨7, 10⟩, ⟨6, 10⟩, ⟨5, 10⟩, ⟨4, 10⟩, ⟨3, 10⟩], score := 30,
    grow := 1, food := ⟨8, 10⟩ }

/-- The game after the snake of `freshAhead` has eaten its first food, the
next food having been drawn at `(3,3)`, away from the path. -/
def ateFoodAway : State := { afterFirstFood with food := ⟨3, 3⟩ }

/-- The game one plain step after `ateFoodAway`. -/
def movedAfterFood : State :=
  { ateFoodAway with snake := [⟨7, 10⟩, ⟨6, 10⟩, ⟨5, 10⟩, ⟨4, 10⟩] }

/-- A playing game whose head is in the last column and heads right. -/
def atRightWall : State :=
  { initialRecord with snake := [⟨19, 10⟩, ⟨18, 10⟩, ⟨17, 10⟩], food := ⟨3, 3⟩ }

/-- The record of the scenario "snake at [(5,10),(4,10),(3,10)], direction
(1,0), no obstacles", with the food away from the path. -/
def plainMove : State := { initialRecord with food := ⟨3, 3⟩ }

/-- The record of `plainMove` after the player has pressed the left key. -/
def reversePressed : State := { plainMove with nextDir := ⟨-1, 0⟩ }

/-- The record of `plainMove` after the player has pressed the up key. -/
def upPressed : State := { plainMove with nextDir := ⟨0, -1⟩ }

/-- The record `plainMove` half a second later. -/
def plainMoveHalfSecond : State := { plainMove with foodTimer := 15 / 2 }

/-- The record `plainMove` after its food has expired and has been drawn anew
at `(1,1)`. -/
def plainMoveNewFood : State := { plainMove with food := ⟨1, 1⟩ }

/-- The record `plainMove` while the game is paused. -/
def plainMovePaused : State := { plainMove with paused := true }

/-- A driver at rest on the paused game. -/
def pausedDriver : Driver :=
  { state := plainMovePaused, lastTime := 0, accumulator := 0, stepCalls := 0 }

/-- A driver at rest on the game whose head is in the last column. -/
def wallDriver : Driver :=
  { state := atRightWall, lastTime := 0, accumulator := 0, stepCalls := 0 }

/-- The driver `wallDriver` after the frame at 250 ms. -/
def wallDriverAfter : Driver :=
  { state := { gameOver atRightWall with foodTimer := 31 / 4 },
    lastTime := 250, accumulator := 0, stepCalls := 2 }

/-- A fresh game whose food was drawn at `(19,19)`. -/
def freshCorner : State := { initialRecord with food := ⟨19, 19⟩ }

/-- Keys and steps that take the snake of `freshCorner` up one row, left to
the first column, up along it, and then left into the wall. -/
def edgeTurnOps : List (Op × List Draw) :=
  [(Op.key Key.up, []), (Op.step, []),
   (Op.key Key.left, []), (Op.step, []), (Op.step, []), (Op.step, []), (Op.step, []),
   (Op.step, []),
   (Op.key Key.up, []), (Op.step, []),
   (Op.key Key.left, []), (Op.step, [])]

/-- The record after `edgeTurnOps`: the game is over, the head is at `(0,8)`
above its neck `(0,9)`, and the heading is left. -/
def edgeTurn : State :=
  { freshCorner with
    dir := ⟨-1, 0⟩, nextDir := ⟨-1, 0⟩, snake := [⟨0, 8⟩, ⟨0, 9⟩, ⟨1, 9⟩],
    playing := false, over := true }

/-- The record after the first two of `edgeTurnOps`: the up key and one step. -/
def turnedUp : State :=
  { freshCorner with
    dir := ⟨0, -1⟩, nextDir := ⟨0, -1⟩, snake := [⟨5, 9⟩, ⟨5, 10⟩, ⟨4, 10⟩] }

/-- The record `plainMove` with half a second left on the food timer. -/
def halfSecondLeft : State := { plainMove with foodTimer := 1 / 2 }

/-- The record `halfSecondLeft` after five ticks of the binary64 number 0.1:
the timer is `2^-55`, not zero, and the food has not moved. -/
def afterFiveTenths : State := { plainMove with foodTimer := 1 / 36028797018963968 }

/-- A game at level 3 (10 cells per second): 60 points, nine cells, two
obstacles, the food away from the path. -/
def levelThree : State :=
  { initialRecord with
    snake := [⟨10, 10⟩, ⟨9, 10⟩, ⟨8, 10⟩, ⟨7, 10⟩, ⟨6, 10⟩, ⟨5, 10⟩, ⟨4, 10⟩, ⟨3, 10⟩,
              ⟨2, 10⟩],
    score := 60, level := 3, obstacles := [⟨0, 0⟩, ⟨1, 1⟩], food := ⟨3, 3⟩,
    foodTTL := 6, foodTimer := 6 }

/-- The record `levelThree` one step later. -/
def levelThreeOneStep : State :=
  { levelThree with
    snake := [⟨11, 10⟩, ⟨10, 10⟩, ⟨9, 10⟩, ⟨8, 10⟩, ⟨7, 10⟩, ⟨6, 10⟩, ⟨5, 10⟩, ⟨4, 10⟩,
              ⟨3, 10⟩] }

/-- The record `levelThree` two steps later. -/
def levelThreeTwoSteps : State :=
  { levelThree with
    snake := [⟨12, 10⟩, ⟨11, 10⟩, ⟨10, 10⟩, ⟨9, 10⟩, ⟨8, 10⟩, ⟨7, 10⟩, ⟨6, 10⟩, ⟨5, 10⟩,
              ⟨4, 10⟩] }

/-- A driver at rest on the game at level 3. -/
def levelThreeDriver : Driver :=
  { state := levelThree, lastTime := 0, accumulator := 0, stepCalls := 0 }

/-- The driver `levelThreeDriver` after the frame at 300 ms: two steps, the
accumulator at the binary64 number 0.09999999999999998, the food timer at
the binary64 number 5.7. -/
def levelThreeDriverAfter : Driver :=
  { state := { levelThreeTwoSteps with foodTimer := 6417629469002957 / 1125899906842624 },
    lastTime := 300, accumulator := 900719925474099 / 9007199254740992, stepCalls := 2 }

/-! ## Basic facts -/

theorem cellsEqual_iff (a b : Cell) : cellsEqual a b = true ↔ a = b := by
  cases a; cases b
  simp [cellsEqual]

theorem any_cellsEqual_iff (l : List Cell) (c : Cell) :
    l.any (fun q => cellsEqual q c) = true ↔ c ∈ l := by
  simp only [List.any_eq_true, cellsEqual_iff]
  constructor
  · rintro ⟨q, hq, rfl⟩
    exact hq
  · intro h
    exact ⟨c, h, rfl⟩

theorem cellInSnake_iff (s : State) (c : Cell) : cellInSnake s c = true ↔ c ∈ s.snake :=
  any_cellsEqual_iff _ _

theorem cellInObstacles_iff (s : State) (c : Cell) :
    cellInObstacles s c = true ↔ c ∈ s.obstacles :=
  any_cellsEqual_iff _ _

theorem randomCell_inGrid (d : Draw) : InGrid (randomCell d) := by
  have h1 := d.1.isLt
  have h2 := d.2.isLt
  simp only [InGrid, randomCell, GRID] at *
  omega

theorem hitsWall_iff (c : Cell) : hitsWall c.x c.y = true ↔ ¬ InGrid c := by
  simp only [hitsWall, InGrid, Bool.or_eq_true, decide_eq_true_eq]
  omega

theorem hitsObstacleOrBody_iff (s : State) (c : Cell) :
    hitsObstacleOrBody s c = true ↔ c ∈ s.obstacles ∨ c ∈ s.snake := by
  simp only [hitsObstacleOrBody, Bool.or_eq_true, cellInObstacles_iff, any_cellsEqual_iff]

/-! ## Rounding to binary64 -/

theorem roundHalfEven_intCast (n : Int) : roundHalfEven (n : ℚ) = n := by
  simp [roundHalfEven]

theorem roundHalfEven_cases (x : ℚ) : roundHalfEven x = ⌊x⌋ ∨
    (roundHalfEven x = ⌊x⌋ + 1 ∧ 1 / 2 ≤ x - ⌊x⌋) := by
  simp only [roundHalfEven]
  split
  · exact Or.inl rfl
  · rename_i h1
    have h2 : 1 / 2 ≤ x - ⌊x⌋ := not_lt.1 h1
    split
    · exact Or.inr ⟨rfl, h2⟩
    · split
      · exact Or.inl rfl
      · exact Or.inr ⟨rfl, h2⟩

theorem roundHalfEven_nonneg (x : ℚ) (h : 0 ≤ x) : 0 ≤ roundHalfEven x := by
  have hf : 0 ≤ ⌊x⌋ := Int.floor_nonneg.2 h
  rcases roundHalfEven_cases x with h1 | ⟨h1, -⟩ <;> omega

theorem roundHalfEven_nonpos (x : ℚ) (h : x ≤ 0) : roundHalfEven x ≤ 0 := by
  have hf : (⌊x⌋ : ℚ) ≤ x := Int.floor_le x
  have hf0 : ⌊x⌋ ≤ 0 := by
    have : (⌊x⌋ : ℚ) ≤ ((0 : Int) : ℚ) := by push_cast; linarith
    exact_mod_cast this
  rcases roundHalfEven_cases x with h1 | ⟨h1, h2⟩
  · omega
  · have h3 : (⌊x⌋ : ℚ) < ((0 : Int) : ℚ) := by push_cast; linarith
    have h4 : ⌊x⌋ < 0 := by exact_mod_cast h3
    omega

theorem roundHalfEven_pos (x : ℚ) (h : 1 ≤ x) : 0 < roundHalfEven x := by
  have hf : 1 ≤ ⌊x⌋ := Int.le_floor.2 (by exact_mod_cast h)
  rcases roundHalfEven_cases x with h1 | ⟨h1, -⟩ <;> omega

theorem ulpExp_ge (q : ℚ) : -1074 ≤ ulpExp q := le_max_right _ _

theorem two_zpow_pos (e : Int) : (0 : ℚ) < (2 : ℚ) ^ e := zpow_pos (by norm_num) e

theorem toDouble_nonneg (x : ℚ) (h : 0 ≤ x) : 0 ≤ toDouble x := by
  unfold toDouble
  have h1 : 0 ≤ x / (2 : ℚ) ^ ulpExp x := div_nonneg h (le_of_lt (two_zpow_pos _))
  have h2 : (0 : ℚ) ≤ (roundHalfEven (x / (2 : ℚ) ^ ulpExp x) : ℚ) := by
    exact_mod_cast roundHalfEven_nonneg _ h1
  exact mul_nonneg h2 (le_of_lt (two_zpow_pos _))

theorem toDouble_nonpos (x : ℚ) (h : x ≤ 0) : toDouble x ≤ 0 := by
  unfold toDouble
  have h1 : x / (2 : ℚ) ^ ulpExp x ≤ 0 := div_nonpos_of_nonpos_of_nonneg h (le_of_lt (two_zpow_pos _))
  have h2 : (roundHalfEven (x / (2 : ℚ) ^ ulpExp x) : ℚ) ≤ 0 := by
    exact_mod_cast roundHalfEven_nonpos _ h1
  exact mul_nonpos_of_nonpos_of_nonneg h2 (le_of_lt (two_zpow_pos _))

theorem two_zpow_ulpExp_le (x : ℚ) (h : (2 : ℚ) ^ (-1074 : Int) ≤ x) : (2 : ℚ) ^ ulpExp x ≤ x := by
  have hx : 0 < x := lt_of_lt_of_le (two_zpow_pos _) h
  unfold ulpExp
  rcases max_cases (Int.log 2 |x| - 52) (-1074) with ⟨he, -⟩ | ⟨he, -⟩
  · rw [he, abs_of_pos hx]
    have h1 : ((2 : ℕ) : ℚ) ^ Int.log 2 x ≤ x := Int.zpow_log_le_self (by norm_num) hx
    have h2 : (2 : ℚ) ^ (Int.log 2 x - 52) ≤ (2 : ℚ) ^ Int.log 2 x :=
      zpow_le_zpow_right₀ (by norm_num) (by omega)
    push_cast at h1
    exact le_trans h2 h1
  · rw [he]
    exact h

/-- A result that is at least the smallest subnormal number is rounded to a
positive number. -/
theorem toDouble_pos (x : ℚ) (h : (2 : ℚ) ^ (-1074 : Int) ≤ x) : 0 < toDouble x := by
  have hle := two_zpow_ulpExp_le x h
  unfold toDouble
  have h1 : 1 ≤ x / (2 : ℚ) ^ ulpExp x := (one_le_div (two_zpow_pos _)).2 hle
  have h2 : (0 : ℚ) < (roundHalfEven (x / (2 : ℚ) ^ ulpExp x) : ℚ) := by
    exact_mod_cast roundHalfEven_pos _ h1
  exact mul_pos h2 (two_zpow_pos _)

/-- Every value of `toDouble` is a multiple of the smallest subnormal number. -/
theorem toDouble_grid (x : ℚ) : ∃ k : Int, toDouble x = (k : ℚ) * (2 : ℚ) ^ (-1074 : Int) := by
  obtain ⟨n, hn⟩ := Int.eq_ofNat_of_zero_le (sub_nonneg.2 (ulpExp_ge x))
  have he : ulpExp x = (n : Int) + (-1074) := by omega
  refine ⟨roundHalfEven (x / (2 : ℚ) ^ ulpExp x) * 2 ^ n, ?_⟩
  unfold toDouble
  rw [he, zpow_add₀ (two_ne_zero), zpow_natCast]
  push_cast
  ring

/-- A number with a significand below `2^53` and an exponent from `-1074` on is
a binary64 number: rounding leaves it as it is. -/
theorem toDouble_dyadic (m k : Int) (hm : |m| < 2 ^ 53) (hk : -1074 ≤ k) :
    toDouble ((m : ℚ) * (2 : ℚ) ^ k) = (m : ℚ) * (2 : ℚ) ^ k := by
  by_cases hm0 : m = 0
  · subst hm0
    simp [toDouble, roundHalfEven]
  · have hq : (0 : ℚ) < |(m : ℚ) * (2 : ℚ) ^ k| := by
      rw [abs_pos]
      exact mul_ne_zero (by exact_mod_cast hm0) (ne_of_gt (two_zpow_pos k))
    have hlt : |(m : ℚ) * (2 : ℚ) ^ k| < ((2 : ℕ) : ℚ) ^ (k + 53) := by
      rw [abs_mul, abs_of_pos (two_zpow_pos k), zpow_add₀ (by norm_num), mul_comm]
      push_cast
      apply mul_lt_mul_of_pos_left _ (two_zpow_pos k)
      have : ((|m| : Int) : ℚ) < ((2 ^ 53 : Int) : ℚ) := by exact_mod_cast hm
      push_cast at this
      rw [zpow_ofNat]
      exact this
    have hlog : Int.log 2 |(m : ℚ) * (2 : ℚ) ^ k| < k + 53 :=
      (Int.lt_zpow_iff_log_lt (by norm_num) hq).1 hlt
    have he : ulpExp ((m : ℚ) * (2 : ℚ) ^ k) ≤ k := by
      unfold ulpExp
      exact max_le (by omega) hk
    obtain ⟨n, hn⟩ := Int.eq_ofNat_of_zero_le (sub_nonneg.2 he)
    have hk2 : k = ulpExp ((m : ℚ) * (2 : ℚ) ^ k) + (n : Int) := by omega
    have hdiv : (m : ℚ) * (2 : ℚ) ^ k / (2 : ℚ) ^ ulpExp ((m : ℚ) * (2 : ℚ) ^ k)
        = ((m * 2 ^ n : Int) : ℚ) := by
      rw [div_eq_iff (ne_of_gt (two_zpow_pos _))]
      conv_lhs => rw [hk2]
      rw [zpow_add₀ (two_ne_zero), zpow_natCast]
      push_cast
      ring
    unfold toDouble
    rw [hdiv, roundHalfEven_intCast]
    conv_rhs => rw [hk2]
    rw [zpow_add₀ (two_ne_zero), zpow_natCast]
    push_cast
    ring

/-- A number given as a significand below `2^53` times a power of two from
`2^-1074` on is left as it is by the rounding. -/
theorem toDouble_fixed (q : ℚ) (m k : Int) (hq : q = (m : ℚ) * (2 : ℚ) ^ k)
    (hm : |m| < 2 ^ 53) (hk : -1074 ≤ k) : toDouble q = q := by
  rw [hq]
  exact toDouble_dyadic m k hm hk

theorem toDouble_zero : toDouble 0 = 0 :=
  toDouble_fixed 0 0 0 (by norm_num) (by decide) (by decide)

/-- An integer below `2^53` in absolute value is a binary64 number. -/
theorem toDouble_intCast (m : Int) (hm : |m| < 2 ^ 53) : toDouble (m : ℚ) = (m : ℚ) :=
  toDouble_fixed (m : ℚ) m 0 (by simp) hm (by decide)

/-- The difference of two binary64 numbers, when positive, is rounded to a
positive number: a subtraction never underflows to zero. -/
theorem toDouble_sub_pos (a b : ℚ) (ha : toDouble a = a) (hb : toDouble b = b)
    (h : 0 < a - b) : 0 < toDouble (a - b) := by
  obtain ⟨ka, hka⟩ := toDouble_grid a
  obtain ⟨kb, hkb⟩ := toDouble_grid b
  rw [ha] at hka
  rw [hb] at hkb
  apply toDouble_pos
  have hu := two_zpow_pos (-1074)
  have hsub : a - b = ((ka - kb : Int) : ℚ) * (2 : ℚ) ^ (-1074 : Int) := by
    rw [hka, hkb]
    push_cast
    ring
  rw [hsub] at h ⊢
  have hk : (0 : ℚ) < ((ka - kb : Int) : ℚ) := by
    by_contra hneg
    exact absurd h (not_lt.2 (mul_nonpos_of_nonpos_of_nonneg (not_lt.1 hneg) (le_of_lt hu)))
  have hk1 : (1 : ℚ) ≤ ((ka - kb : Int) : ℚ) := by
    have h0 : (0 : Int) < ka - kb := by exact_mod_cast hk
    have h1 : (1 : Int) ≤ ka - kb := h0
    exact_mod_cast h1
  calc (2 : ℚ) ^ (-1074 : Int) = 1 * (2 : ℚ) ^ (-1074 : Int) := (one_mul _).symm
    _ ≤ ((ka - kb : Int) : ℚ) * (2 : ℚ) ^ (-1074 : Int) :=
        mul_le_mul_of_nonneg_right hk1 (le_of_lt hu)

theorem roundHalfEven_down (x : ℚ) (f : Int) (h1 : (f : ℚ) ≤ x) (h2 : x - f < 1 / 2) :
    roundHalfEven x = f := by
  have hf : ⌊x⌋ = f := Int.floor_eq_iff.2 ⟨h1, by linarith⟩
  simp only [roundHalfEven, hf]
  rw [if_pos h2]

theorem roundHalfEven_up (x : ℚ) (f : Int) (h1 : 1 / 2 < x - f) (h2 : x < f + 1) :
    roundHalfEven x = f + 1 := by
  have hf : ⌊x⌋ = f := Int.floor_eq_iff.2 ⟨by linarith, h2⟩
  simp only [roundHalfEven, hf]
  rw [if_neg (not_lt.2 (le_of_lt h1)), if_pos h1]

theorem roundHalfEven_tie_odd (x : ℚ) (f : Int) (h : x - f = 1 / 2) (hodd : f % 2 = 1) :
    roundHalfEven x = f + 1 := by
  have hf : ⌊x⌋ = f := Int.floor_eq_iff.2 ⟨by linarith, by linarith⟩
  simp only [roundHalfEven, hf]
  rw [if_neg (by rw [h]; exact lt_irrefl _), if_neg (by rw [h]; exact lt_irrefl _),
    if_neg (by omega)]

/-- The rounding of a positive normal number, from its binary exponent and the
rounding of its significand. -/
theorem toDouble_eval (q : ℚ) (k m : Int) (hlo : (2 : ℚ) ^ k ≤ q) (hhi : q < (2 : ℚ) ^ (k + 1))
    (hk : -1022 ≤ k) (hm : roundHalfEven (q / (2 : ℚ) ^ (k - 52)) = m) :
    toDouble q = (m : ℚ) * (2 : ℚ) ^ (k - 52) := by
  have hpos : 0 < q := lt_of_lt_of_le (two_zpow_pos k) hlo
  have h1 : k ≤ Int.log 2 q :=
    (Int.zpow_le_iff_le_log (by norm_num) hpos).1 (by push_cast; exact hlo)
  have h2 : Int.log 2 q < k + 1 :=
    (Int.lt_zpow_iff_log_lt (by norm_num) hpos).1 (by push_cast; exact hhi)
  have hlog : Int.log 2 q = k := by omega
  have he : ulpExp q = k - 52 := by
    unfold ulpExp
    rw [abs_of_pos hpos, hlog]
    exact max_eq_left (by omega)
  unfold toDouble
  rw [he, hm]

/-! ## Free-cell search -/

theorem freeRandomCell_ok (s : State) (rng rest : List Draw) (c : Cell)
    (h : freeRandomCell s rng = .ok (c, rest)) :
    c ∉ s.snake ∧ c ∉ s.obstacles ∧ InGrid c := by
  induction rng with
  | nil => simp [freeRandomCell] at h
  | cons d ds ih =>
    simp only [freeRandomCell] at h
    split at h
    · exact ih h
    · rename_i hfree
      simp only [Except.ok.injEq, Prod.mk.injEq] at h
      obtain ⟨rfl, -⟩ := h
      simp only [Bool.or_eq_true, cellInSnake_iff, cellInObstacles_iff, not_or] at hfree
      exact ⟨hfree.1, hfree.2, randomCell_inGrid d⟩

/-- The search returns as soon as the draws contain a free cell. -/
theorem freeRandomCell_returns (s : State) (rng : List Draw)
    (h : ∃ d ∈ rng, randomCell d ∉ s.snake ∧ randomCell d ∉ s.obstacles) :
    ∃ c rest, freeRandomCell s rng = .ok (c, rest) := by
  induction rng with
  | nil => simp at h
  | cons d ds ih =>
    simp only [freeRandomCell]
    split
    · rename_i hocc
      apply ih
      obtain ⟨e, he, hes, heo⟩ := h
      rcases List.mem_cons.1 he with rfl | he
      · simp only [Bool.or_eq_true, cellInSnake_iff, cellInObstacles_iff] at hocc
        rcases hocc with hocc | hocc
        · exact absurd hocc hes
        · exact absurd hocc heo
      · exact ⟨e, he, hes, heo⟩
    · exact ⟨_, _, rfl⟩

theorem placeFood_ok (s t : State) (rng rest : List Draw)
    (h : placeFood s rng = .ok (t, rest)) :
    ∃ c, t = regenFoodTimer { s with food := c } ∧ c ∉ s.snake ∧ c ∉ s.obstacles ∧ InGrid c := by
  unfold placeFood at h
  split at h
  · simp at h
  · rename_i c rest1 hfree
    simp only [Except.ok.injEq, Prod.mk.injEq] at h
    exact ⟨c, h.1.symm, freeRandomCell_ok s rng rest1 c hfree⟩

/-- The free-cell search reads only the snake and the obstacles of the record. -/
theorem freeRandomCell_congr (s t : State) (rng : List Draw) (hsn : t.snake = s.snake)
    (hob : t.obstacles = s.obstacles) : freeRandomCell t rng = freeRandomCell s rng := by
  induction rng with
  | nil => rfl
  | cons d ds ih =>
    simp only [freeRandomCell, cellInSnake, cellInObstacles, hsn, hob, ih]

/-- When `placeFood()` returns, the food is the cell the free-cell search
returned on the same draws. -/
theorem placeFood_eq (s t : State) (rng rest : List Draw)
    (h : placeFood s rng = .ok (t, rest)) :
    ∃ c, freeRandomCell s rng = .ok (c, rest) ∧ t = regenFoodTimer { s with food := c } := by
  unfold placeFood at h
  split at h
  · simp at h
  · rename_i c rest1 hfree
    simp only [Except.ok.injEq, Prod.mk.injEq] at h
    obtain ⟨h1, h2⟩ := h
    subst h2
    exact ⟨c, hfree, h1.symm⟩

/-! ## Obstacle generation -/

theorem pickObstacle_ok (s : State) (obs : List Cell) (rng rest : List Draw) (c : Cell)
    (h : pickObstacle s obs rng = .ok (c, rest)) :
    c ∉ s.snake ∧ c ≠ s.food ∧ c ∉ obs ∧ InGrid c := by
  induction rng with
  | nil => simp [pickObstacle] at h
  | cons d ds ih =>
    simp only [pickObstacle] at h
    split at h
    · exact ih h
    · rename_i hfree
      simp only [Except.ok.injEq, Prod.mk.injEq] at h
      obtain ⟨rfl, -⟩ := h
      simp only [Bool.or_eq_true, cellInSnake_iff, cellsEqual_iff, any_cellsEqual_iff,
        not_or] at hfree
      exact ⟨hfree.1.1, hfree.1.2, hfree.2, randomCell_inGrid d⟩

theorem buildLoop_ok (s : State) (k : Nat) (obs res : List Cell) (rng rest : List Draw)
    (h : buildLoop s k obs rng = .ok (res, rest)) :
    res.length = obs.length + k ∧ (obs.Nodup → res.Nodup) ∧
      ∀ c ∈ res, c ∈ obs ∨ (c ∉ s.snake ∧ c ≠ s.food ∧ InGrid c) := by
  induction k generalizing obs rng with
  | zero =>
    simp only [buildLoop, Except.ok.injEq, Prod.mk.injEq] at h
    obtain ⟨rfl, -⟩ := h
    exact ⟨rfl, id, fun c hc => Or.inl hc⟩
  | succ k ih =>
    simp only [buildLoop] at h
    split at h
    · simp at h
    · rename_i c rest1 hpick
      obtain ⟨hsn, hfd, hob, hgr⟩ := pickObstacle_ok s obs rng rest1 c hpick
      obtain ⟨hlen, hnd, hmem⟩ := ih (obs ++ [c]) rest1 h
      refine ⟨?_, ?_, ?_⟩
      · simp only [List.length_append, List.length_singleton] at hlen
        omega
      · intro hobs
        apply hnd
        rw [List.nodup_append]
        refine ⟨hobs, List.nodup_singleton c, ?_⟩
        intro a ha hb
        rw [List.mem_singleton] at hb
        exact hob (hb ▸ ha)
      · intro q hq
        rcases hmem q hq with hq | hq
        · rcases List.mem_append.1 hq with hq | hq
          · exact Or.inl hq
          · rw [List.mem_singleton] at hq
            subst hq
            exact Or.inr ⟨hsn, hfd, hgr⟩
        · exact Or.inr hq

theorem buildObstacles_ok (s : State) (level : Int) (obs : List Cell) (rng rest : List Draw)
    (h : buildObstacles s level rng = .ok (obs, rest)) :
    obs.length = (obstaclesFor level).toNat ∧ obs.Nodup ∧
      ∀ c ∈ obs, c ∉ s.snake ∧ c ≠ s.food ∧ InGrid c := by
  obtain ⟨hlen, hnd, hmem⟩ := buildLoop_ok s _ [] obs rng rest h
  refine ⟨by simpa using hlen, hnd List.nodup_nil, ?_⟩
  intro c hc
  rcases hmem c hc with hc | hc
  · simp at hc
  · exact hc

/-! ## Levels -/

theorem levelUpIfNeeded_ok (s t : State) (rng rest : List Draw)
    (h : levelUpIfNeeded s rng = .ok (t, rest)) :
    (newLevel s.score = s.level ∧ t = s ∧ rest = rng) ∨
    (newLevel s.score ≠ s.level ∧ ∃ obs,
      t = { s with level := newLevel s.score, obstacles := obs } ∧
      obs.length = (obstaclesFor (newLevel s.score)).toNat ∧ obs.Nodup ∧
      ∀ c ∈ obs, c ∉ s.snake ∧ c ≠ s.food ∧ InGrid c) := by
  unfold levelUpIfNeeded at h
  split at h
  · rename_i hne
    right
    refine ⟨hne, ?_⟩
    simp only at h
    split at h
    · simp at h
    · rename_i obs rest1 hbuild
      simp only [Except.ok.injEq, Prod.mk.injEq] at h
      exact ⟨obs, h.1.symm, buildObstacles_ok { s with level := newLevel s.score } _ obs rng rest1 hbuild⟩
  · rename_i heq
    left
    simp only [Except.ok.injEq, Prod.mk.injEq] at h
    exact ⟨not_not.1 heq, h.1.symm, h.2.symm⟩

/-! ## The step, case by case -/

theorem commitDir_snake (s : State) : (commitDir s).snake = s.snake := by
  simp only [commitDir]
  split <;> rfl

theorem commitDir_obstacles (s : State) : (commitDir s).obstacles = s.obstacles := by
  simp only [commitDir]
  split <;> rfl

theorem commitDir_food (s : State) : (commitDir s).food = s.food := by
  simp only [commitDir]
  split <;> rfl

theorem commitDir_dir_of_reverse (s : State) (h : IsReverse s) : (commitDir s).dir = s.dir := by
  unfold commitDir
  simp [h.1, h.2]

theorem commitDir_dir_of_not_reverse (s : State) (h : ¬ IsReverse s) :
    (commitDir s).dir = s.nextDir := by
  by_cases hb : (s.nextDir.x == -s.dir.x && s.nextDir.y == -s.dir.y) = true
  · exfalso
    apply h
    simp only [Bool.and_eq_true, beq_iff_eq] at hb
    exact hb
  · have hb2 : (!(s.nextDir.x == -s.dir.x && s.nextDir.y == -s.dir.y)) = true := by
      rw [Bool.not_eq_true] at hb
      rw [hb]
      rfl
    simp only [commitDir]
    rw [if_pos hb2]

/-- A step whose candidate head is a collision ends the game and draws nothing. -/
theorem step_collision (s : State) (head : Cell) (tl : List Cell) (rng : List Draw)
    (hs : s.snake = head :: tl) (hc : Collides s (candidate s head)) :
    step s rng = .ok (gameOver (commitDir s), rng) := by
  have hsn : (commitDir s).snake = head :: tl := by rw [commitDir_snake, hs]
  unfold step
  simp only
  split
  · rename_i hnil
    rw [hsn] at hnil
    cases hnil
  · rename_i h0 t0 hcons
    rw [hsn] at hcons
    obtain ⟨rfl, rfl⟩ := List.cons.inj hcons
    by_cases hw : hitsWall (head.x + (commitDir s).dir.x) (head.y + (commitDir s).dir.y) = true
    · rw [if_pos hw]
    · rw [if_neg hw]
      have hin : InGrid (candidate s head) := by
        by_contra hn
        exact hw ((hitsWall_iff (candidate s head)).2 hn)
      have hob : hitsObstacleOrBody (commitDir s) (candidate s head) = true := by
        rw [hitsObstacleOrBody_iff, commitDir_obstacles, commitDir_snake]
        rcases hc with hc | hc
        · exact absurd hin hc
        · exact hc
      simp only [candidate] at hob
      simp only [hob, if_true]

/-- A step whose candidate head is no collision and is not on the food moves
the snake and draws nothing. -/
theorem step_move (s : State) (head : Cell) (tl : List Cell) (rng : List Draw)
    (hs : s.snake = head :: tl) (hc : ¬ Collides s (candidate s head))
    (hf : candidate s head ≠ s.food) :
    step s rng =
      .ok (growOrMoveTail { commitDir s with snake := candidate s head :: s.snake }, rng) := by
  have hsn : (commitDir s).snake = head :: tl := by rw [commitDir_snake, hs]
  simp only [Collides, not_or, not_not] at hc
  unfold step
  simp only
  split
  · rename_i hnil
    rw [hsn] at hnil
    cases hnil
  · rename_i h0 t0 hcons
    rw [hsn] at hcons
    obtain ⟨rfl, rfl⟩ := List.cons.inj hcons
    have hw : ¬ hitsWall (head.x + (commitDir s).dir.x) (head.y + (commitDir s).dir.y) = true := by
      intro hw
      exact (hitsWall_iff (candidate s head)).1 hw hc.1
    have hob : ¬ hitsObstacleOrBody (commitDir s) (candidate s head) = true := by
      rw [hitsObstacleOrBody_iff, commitDir_obstacles, commitDir_snake]
      rintro (h | h)
      · exact hc.2.1 h
      · exact hc.2.2 h
    have hfd : ¬ cellsEqual (candidate s head) (commitDir s).food = true := by
      rw [cellsEqual_iff, commitDir_food]
      exact hf
    simp only [candidate] at hob hfd
    rw [if_neg hw, if_neg hob, if_neg hfd, commitDir_snake]
    rfl

/-- A step whose candidate head is no collision and is on the food eats and
then settles the tail. -/
theorem step_eat (s : State) (head : Cell) (tl : List Cell) (rng : List Draw)
    (hs : s.snake = head :: tl) (hc : ¬ Collides s (candidate s head))
    (hf : candidate s head = s.food) :
    step s rng =
      match eat { commitDir s with snake := candidate s head :: s.snake } rng with
      | .error e => .error e
      | .ok (s2, rest) => .ok (growOrMoveTail s2, rest) := by
  have hsn : (commitDir s).snake = head :: tl := by rw [commitDir_snake, hs]
  simp only [Collides, not_or, not_not] at hc
  unfold step
  simp only
  split
  · rename_i hnil
    rw [hsn] at hnil
    cases hnil
  · rename_i h0 t0 hcons
    rw [hsn] at hcons
    obtain ⟨rfl, rfl⟩ := List.cons.inj hcons
    have hw : ¬ hitsWall (head.x + (commitDir s).dir.x) (head.y + (commitDir s).dir.y) = true := by
      intro hw
      exact (hitsWall_iff (candidate s head)).1 hw hc.1
    have hob : ¬ hitsObstacleOrBody (commitDir s) (candidate s head) = true := by
      rw [hitsObstacleOrBody_iff, commitDir_obstacles, commitDir_snake]
      rintro (h | h)
      · exact hc.2.1 h
      · exact hc.2.2 h
    have hfd : cellsEqual (candidate s head) (commitDir s).food = true := by
      rw [cellsEqual_iff, commitDir_food]
      exact hf
    simp only [candidate] at hob hfd
    rw [if_neg hw, if_neg hob, if_pos hfd, commitDir_snake]
    rfl

theorem step_empty (s : State) (rng : List Draw) (hs : s.snake = []) :
    step s rng = .error .typeError := by
  have hsn : (commitDir s).snake = [] := by rw [commitDir_snake, hs]
  unfold step
  simp only
  split
  · rfl
  · rename_i h0 t0 hcons
    rw [hsn] at hcons
    cases hcons

/-! ## Eating -/

theorem eat_ok (s t : State) (rng rest : List Draw) (h : eat s rng = .ok (t, rest)) :
    ∃ obs c,
      t = regenFoodTimer { s with score := s.score + 10, grow := s.grow + GROW_PER_FOOD,
                                  level := newLevel (s.score + 10), obstacles := obs, food := c } ∧
      ((newLevel (s.score + 10) = s.level ∧ obs = s.obstacles) ∨
       (newLevel (s.score + 10) ≠ s.level ∧
        obs.length = (obstaclesFor (newLevel (s.score + 10))).toNat ∧ obs.Nodup ∧
        ∀ o ∈ obs, o ∉ s.snake ∧ o ≠ s.food ∧ InGrid o)) ∧
      c ∉ s.snake ∧ c ∉ obs ∧ InGrid c := by
  unfold eat at h
  simp only at h
  split at h
  · simp at h
  · rename_i s3 rest1 hlvl
    obtain ⟨c, ht, hcs, hco, hcg⟩ := placeFood_ok s3 t rest1 rest h
    rcases levelUpIfNeeded_ok _ _ _ _ hlvl with ⟨heq, hs3, -⟩ | ⟨hne, obs, hs3, hlen, hnd, hmem⟩
    · subst hs3
      simp only at heq hcs hco
      refine ⟨s.obstacles, c, ?_, Or.inl ⟨heq, rfl⟩, hcs, hco, hcg⟩
      rw [ht, heq]
    · subst hs3
      simp only at hne hcs hco hlen hmem
      exact ⟨obs, c, ht, Or.inr ⟨hne, hlen, hnd, hmem⟩, hcs, hco, hcg⟩

/-! ## The layout invariant is preserved -/

theorem inv_of_sublist (s t : State) (hsn : t.snake.Sublist s.snake)
    (hob : t.obstacles = s.obstacles) (hfd : t.food = s.food) (h : Inv s) : Inv t := by
  obtain ⟨⟨h1, h2, h3, h4⟩, h5, h6⟩ := h
  refine ⟨⟨h1.sublist hsn, fun c hc => h2 c (hsn.subset hc), hob ▸ h3, ?_⟩, ?_, ?_⟩
  · intro o ho hos
    rw [hob] at ho
    exact h4 o ho (hsn.subset hos)
  · rw [hfd]
    exact fun hc => h5 (hsn.subset hc)
  · rw [hfd, hob]
    exact h6

theorem growOrMoveTail_inv (s : State) (h : Inv s) : Inv (growOrMoveTail s) := by
  unfold growOrMoveTail
  split
  · exact inv_of_sublist s _ (List.Sublist.refl _) rfl rfl h
  · exact inv_of_sublist s _ (List.dropLast_sublist _) rfl rfl h

theorem placeFood_inv (s t : State) (rng rest : List Draw) (hb : BoardOK s)
    (h : placeFood s rng = .ok (t, rest)) : Inv t := by
  obtain ⟨c, rfl, hcs, hco, -⟩ := placeFood_ok s t rng rest h
  exact ⟨hb, hcs, hco⟩

theorem tickFoodTimer_inv (dt : ℚ) (s t : State) (rng rest : List Draw) (hi : Inv s)
    (h : tickFoodTimer dt s rng = .ok (t, rest)) : Inv t := by
  unfold tickFoodTimer at h
  simp only at h
  split at h
  · exact placeFood_inv { s with foodTimer := toDouble (s.foodTimer - dt) } t rng rest hi.1 h
  · simp only [Except.ok.injEq, Prod.mk.injEq] at h
    obtain ⟨rfl, -⟩ := h
    exact hi

theorem newGame_inv (s : State) (rng rest : List Draw) (h : newGame rng = .ok (s, rest)) :
    Inv s := by
  unfold newGame at h
  simp only at h
  split at h
  · simp at h
  · rename_i obs rest1 hbuild
    obtain ⟨hlen, hnd, hmem⟩ := buildObstacles_ok _ _ obs rng rest1 hbuild
    apply placeFood_inv _ s rest1 rest _ h
    refine ⟨?_, ?_, hnd, fun o ho => (hmem o ho).1⟩
    · simp [initialRecord]
    · intro c hc
      simp only [initialRecord, List.mem_cons, List.mem_singleton, List.not_mem_nil,
        or_false] at hc
      rcases hc with rfl | rfl | rfl <;> simp [InGrid, GRID]

theorem togglePause_inv (force : Option Bool) (s : State) (h : Inv s) :
    Inv (togglePause force s) := by
  unfold togglePause
  split
  · exact h
  · exact h

theorem keydown_inv (k : Key) (s t : State) (rng rest : List Draw) (hi : Inv s)
    (h : keydown k s rng = .ok (t, rest)) : Inv t := by
  cases k <;> simp only [keydown, Except.ok.injEq, Prod.mk.injEq] at h
  case r => exact newGame_inv t rng rest h
  case p =>
    obtain ⟨rfl, -⟩ := h
    exact togglePause_inv none s hi
  all_goals
    obtain ⟨rfl, -⟩ := h
    exact hi

theorem commitDir_inv (s : State) (h : Inv s) : Inv (commitDir s) :=
  inv_of_sublist s _ (by rw [commitDir_snake]) (commitDir_obstacles s) (commitDir_food s) h

theorem step_inv (s t : State) (rng rest : List Draw) (hi : Inv s)
    (h : step s rng = .ok (t, rest)) : Inv t := by
  cases hs : s.snake with
  | nil => rw [step_empty s rng hs] at h; simp at h
  | cons head tl =>
    by_cases hc : Collides s (candidate s head)
    · rw [step_collision s head tl rng hs hc] at h
      simp only [Except.ok.injEq, Prod.mk.injEq] at h
      obtain ⟨rfl, -⟩ := h
      exact commitDir_inv s hi
    · have hc2 := hc
      simp only [Collides, not_or, not_not] at hc2
      obtain ⟨hin, hno, hns⟩ := hc2
      obtain ⟨⟨h1, h2, h3, h4⟩, h5, h6⟩ := hi
      have hnd : (candidate s head :: s.snake).Nodup := List.nodup_cons.2 ⟨hns, h1⟩
      have hgr : ∀ c ∈ candidate s head :: s.snake, InGrid c := by
        intro c hcm
        rcases List.mem_cons.1 hcm with rfl | hcm
        · exact hin
        · exact h2 c hcm
      by_cases hf : candidate s head = s.food
      · rw [step_eat s head tl rng hs hc hf] at h
        split at h
        · simp at h
        · rename_i t2 rest1 heat
          simp only [Except.ok.injEq, Prod.mk.injEq] at h
          obtain ⟨rfl, -⟩ := h
          apply growOrMoveTail_inv
          obtain ⟨obs, c, rfl, hobs, hcs, hco, -⟩ := eat_ok _ _ _ _ heat
          simp only at hobs hcs
          refine ⟨⟨hnd, hgr, ?_, ?_⟩, hcs, hco⟩
          · rcases hobs with ⟨-, rfl⟩ | ⟨-, -, hn, -⟩
            · rw [commitDir_obstacles]
              exact h3
            · exact hn
          · intro o ho
            rcases hobs with ⟨-, rfl⟩ | ⟨-, -, -, hm⟩
            · rw [commitDir_obstacles] at ho
              intro hmem
              rcases List.mem_cons.1 hmem with rfl | hmem
              · exact hno ho
              · exact h4 o ho hmem
            · exact (hm o ho).1
      · rw [step_move s head tl rng hs hc hf] at h
        simp only [Except.ok.injEq, Prod.mk.injEq] at h
        obtain ⟨rfl, -⟩ := h
        apply growOrMoveTail_inv
        refine ⟨⟨hnd, hgr, ?_, ?_⟩, ?_, ?_⟩
        · rw [commitDir_obstacles]
          exact h3
        · intro o ho
          rw [commitDir_obstacles] at ho
          intro hmem
          rcases List.mem_cons.1 hmem with rfl | hmem
          · exact hno ho
          · exact h4 o ho hmem
        · rw [commitDir_food]
          intro hmem
          rcases List.mem_cons.1 hmem with heq | hmem
          · exact hf heq.symm
          · exact h5 hmem
        · rw [commitDir_food, commitDir_obstacles]
          exact h6

theorem run_inv (op : Op) (s t : State) (rng rest : List Draw) (hi : Inv s)
    (h : op.run s rng = .ok (t, rest)) : Inv t := by
  cases op with
  | step => exact step_inv s t rng rest hi h
  | tick dt => exact tickFoodTimer_inv dt s t rng rest hi h
  | togglePause force =>
    simp only [Op.run, Except.ok.injEq, Prod.mk.injEq] at h
    obtain ⟨rfl, -⟩ := h
    exact togglePause_inv force s hi
  | key k => exact keydown_inv k s t rng rest hi h

theorem reachable_inv (s : State) (h : Reachable s) : Inv s := by
  induction h with
  | init rng rest s hnew => exact newGame_inv s rng rest hnew
  | next op rng rest s t _ hrun ih => exact run_inv op s t rng rest ih hrun

/-! ## The rejection loops return when the grid has room -/

theorem randomCell_injective : Function.Injective randomCell := by
  rintro ⟨a1, a2⟩ ⟨b1, b2⟩ h
  simp only [randomCell, Cell.mk.injEq, Nat.cast_inj] at h
  exact Prod.ext (Fin.ext h.1) (Fin.ext h.2)

/-- Fewer occupied cells than grid cells leave a draw that hits none of them. -/
theorem exists_free_draw (occ : List Cell) (h : occ.length < GRID * GRID) :
    ∃ d : Draw, randomCell d ∉ occ := by
  by_contra hcon
  have hall : ∀ d : Draw, randomCell d ∈ occ := by
    intro d
    by_contra hd
    exact hcon ⟨d, hd⟩
  have hsub : (Finset.univ : Finset Draw).image randomCell ⊆ occ.toFinset := by
    intro c hc
    obtain ⟨d, -, rfl⟩ := Finset.mem_image.1 hc
    exact List.mem_toFinset.2 (hall d)
  have hcard := Finset.card_le_card hsub
  rw [Finset.card_image_of_injective _ randomCell_injective, Finset.card_univ] at hcard
  have hle := List.toFinset_card_le occ
  have hdraw : Fintype.card Draw = GRID * GRID := by
    simp [Draw, Fintype.card_prod, Fintype.card_fin]
  omega

theorem freeRandomCell_first (s : State) (d : Draw) (rest : List Draw)
    (h1 : randomCell d ∉ s.snake) (h2 : randomCell d ∉ s.obstacles) :
    freeRandomCell s (d :: rest) = .ok (randomCell d, rest) := by
  have hb : ¬ (cellInSnake s (randomCell d) || cellInObstacles s (randomCell d)) = true := by
    simp only [Bool.or_eq_true, cellInSnake_iff, cellInObstacles_iff, not_or]
    exact ⟨h1, h2⟩
  simp only [freeRandomCell]
  rw [if_neg hb]

/-- With room on the grid some draw makes `placeFood()` return. -/
theorem placeFood_returns (s : State) (h : s.snake.length + s.obstacles.length < GRID * GRID) :
    ∃ d t, placeFood s [d] = .ok (t, []) := by
  obtain ⟨d, hd⟩ := exists_free_draw (s.snake ++ s.obstacles) (by simpa using h)
  rw [List.mem_append, not_or] at hd
  refine ⟨d, regenFoodTimer { s with food := randomCell d }, ?_⟩
  simp only [placeFood, freeRandomCell_first s d [] hd.1 hd.2]

theorem pickObstacle_first (s : State) (obs : List Cell) (d : Draw) (rest : List Draw)
    (h1 : randomCell d ∉ s.snake) (h2 : randomCell d ≠ s.food) (h3 : randomCell d ∉ obs) :
    pickObstacle s obs (d :: rest) = .ok (randomCell d, rest) := by
  have hb : ¬ (cellInSnake s (randomCell d) || cellsEqual (randomCell d) s.food ||
      obs.any (fun o => cellsEqual o (randomCell d))) = true := by
    simp only [Bool.or_eq_true, cellInSnake_iff, cellsEqual_iff, any_cellsEqual_iff, not_or]
    exact ⟨⟨h1, h2⟩, h3⟩
  simp only [pickObstacle]
  rw [if_neg hb]

/-- With room on the grid some draws make the obstacle loop return. -/
theorem buildLoop_returns (s : State) (k : Nat) (obs : List Cell)
    (h : s.snake.length + 1 + obs.length + k ≤ GRID * GRID) :
    ∃ rng res, buildLoop s k obs rng = .ok (res, []) := by
  induction k generalizing obs with
  | zero => exact ⟨[], obs, rfl⟩
  | succ k ih =>
    obtain ⟨d, hd⟩ := exists_free_draw (s.snake ++ s.food :: obs)
      (by simp only [List.length_append, List.length_cons]; omega)
    simp only [List.mem_append, List.mem_cons, not_or] at hd
    obtain ⟨rng, res, hres⟩ := ih (obs ++ [randomCell d])
      (by simp only [List.length_append, List.length_singleton]; omega)
    refine ⟨d :: rng, res, ?_⟩
    simp only [buildLoop, pickObstacle_first s obs d rng hd.1 hd.2.1 hd.2.2]
    exact hres

theorem obstaclesFor_toNat_le (level : Int) : (obstaclesFor level).toNat ≤ 12 := by
  unfold obstaclesFor
  omega

/-- With room on the grid some draws make `levelUpIfNeeded()` return. -/
theorem levelUpIfNeeded_returns (s : State) (h : s.snake.length + 13 ≤ GRID * GRID) :
    ∃ rng t, levelUpIfNeeded s rng = .ok (t, []) := by
  by_cases hl : newLevel s.score = s.level
  · refine ⟨[], s, ?_⟩
    simp only [levelUpIfNeeded, hl, ne_eq, not_true_eq_false, if_false]
  · have hk := obstaclesFor_toNat_le (newLevel s.score)
    obtain ⟨rng, res, hres⟩ := buildLoop_returns { s with level := newLevel s.score }
      (obstaclesFor (newLevel s.score)).toNat []
      (by simp only [List.length_nil]; omega)
    refine ⟨rng, { s with level := newLevel s.score, obstacles := res }, ?_⟩
    simp only [levelUpIfNeeded, ne_eq, hl, not_false_eq_true, if_true, buildObstacles, hres]

theorem pickObstacle_append (s : State) (obs : List Cell) (rng rest more : List Draw) (c : Cell)
    (h : pickObstacle s obs rng = .ok (c, rest)) :
    pickObstacle s obs (rng ++ more) = .ok (c, rest ++ more) := by
  induction rng with
  | nil => simp [pickObstacle] at h
  | cons d ds ih =>
    simp only [pickObstacle, List.cons_append] at h ⊢
    split at h
    · rename_i hocc
      rw [if_pos hocc]
      exact ih h
    · rename_i hfree
      rw [if_neg hfree]
      simp only [Except.ok.injEq, Prod.mk.injEq] at h
      rw [h.1, h.2]
      rfl

theorem buildLoop_append (s : State) (k : Nat) (obs res : List Cell) (rng rest more : List Draw)
    (h : buildLoop s k obs rng = .ok (res, rest)) :
    buildLoop s k obs (rng ++ more) = .ok (res, rest ++ more) := by
  induction k generalizing obs rng with
  | zero =>
    simp only [buildLoop, Except.ok.injEq, Prod.mk.injEq] at h ⊢
    exact ⟨h.1, by rw [h.2]⟩
  | succ k ih =>
    simp only [buildLoop] at h ⊢
    split at h
    · simp at h
    · rename_i c rest1 hpick
      rw [pickObstacle_append s obs rng rest1 more c hpick]
      exact ih _ _ h

theorem levelUpIfNeeded_append (s t : State) (rng rest more : List Draw)
    (h : levelUpIfNeeded s rng = .ok (t, rest)) :
    levelUpIfNeeded s (rng ++ more) = .ok (t, rest ++ more) := by
  unfold levelUpIfNeeded at h ⊢
  split at h
  · rename_i hne
    rw [if_pos hne]
    simp only at h ⊢
    split at h
    · simp at h
    · rename_i obs rest1 hbuild
      unfold buildObstacles at hbuild ⊢
      rw [buildLoop_append _ _ _ _ _ _ more hbuild]
      simp only [Except.ok.injEq, Prod.mk.injEq] at h ⊢
      exact ⟨h.1, by rw [h.2]⟩
  · rename_i heq
    rw [if_neg heq]
    simp only [Except.ok.injEq, Prod.mk.injEq] at h ⊢
    exact ⟨h.1, by rw [h.2]⟩

/-- With room on the grid some draws make the eating branch return. -/
theorem eat_returns (s : State)
    (h : s.snake.length + s.obstacles.length + 13 ≤ GRID * GRID) :
    ∃ rng t, eat s rng = .ok (t, []) := by
  obtain ⟨rng, s3, hlvl⟩ := levelUpIfNeeded_returns
    { s with score := s.score + 10, grow := s.grow + GROW_PER_FOOD }
    (by simp only; omega)
  have hroom : s3.snake.length + s3.obstacles.length < GRID * GRID := by
    rcases levelUpIfNeeded_ok _ _ _ _ hlvl with ⟨-, rfl, -⟩ | ⟨-, obs, rfl, hlen, -, -⟩
    · simp only
      omega
    · have hk := obstaclesFor_toNat_le (newLevel (s.score + 10))
      simp only at hlen ⊢
      omega
  obtain ⟨d, t, hfood⟩ := placeFood_returns s3 hroom
  refine ⟨rng ++ [d], t, ?_⟩
  unfold eat
  simp only
  rw [levelUpIfNeeded_append _ _ _ _ [d] hlvl]
  simpa using hfood

/-- A step from a state with a head and room on the grid returns for suitable
draws. -/
theorem step_returns (s : State) (head : Cell) (tl : List Cell) (hs : s.snake = head :: tl)
    (h : s.snake.length + s.obstacles.length + 14 ≤ GRID * GRID) :
    ∃ rng t, step s rng = .ok (t, []) := by
  by_cases hc : Collides s (candidate s head)
  · exact ⟨[], _, step_collision s head tl [] hs hc⟩
  · by_cases hf : candidate s head = s.food
    · obtain ⟨rng, t2, heat⟩ := eat_returns
        { commitDir s with snake := candidate s head :: s.snake }
        (by simp only [List.length_cons, commitDir_obstacles]; omega)
      refine ⟨rng, growOrMoveTail t2, ?_⟩
      rw [step_eat s head tl rng hs hc hf, heat]
    · exact ⟨[], _, step_move s head tl [] hs hc hf⟩

/-! ## Flags and counters along a step -/

theorem growOrMoveTail_fields (s : State) :
    (growOrMoveTail s).playing = s.playing ∧ (growOrMoveTail s).over = s.over ∧
    (growOrMoveTail s).score = s.score ∧ (growOrMoveTail s).level = s.level ∧
    (growOrMoveTail s).food = s.food ∧ (growOrMoveTail s).obstacles = s.obstacles ∧
    (growOrMoveTail s).dir = s.dir := by
  unfold growOrMoveTail
  split <;> exact ⟨rfl, rfl, rfl, rfl, rfl, rfl, rfl⟩

theorem commitDir_fields (s : State) :
    (commitDir s).playing = s.playing ∧ (commitDir s).over = s.over ∧
    (commitDir s).score = s.score ∧ (commitDir s).level = s.level ∧
    (commitDir s).grow = s.grow ∧ (commitDir s).paused = s.paused ∧
    (commitDir s).foodTTL = s.foodTTL ∧ (commitDir s).foodTimer = s.foodTimer ∧
    (commitDir s).nextDir = s.nextDir := by
  simp only [commitDir]
  split <;> exact ⟨rfl, rfl, rfl, rfl, rfl, rfl, rfl, rfl, rfl⟩

theorem newLevel_eq (S : Nat) : newLevel S = min (1 + ((S / 30 : Nat) : Int)) 10 := by
  simp only [newLevel, SPEEDS, List.length_cons, List.length_nil]
  rfl

theorem newLevel_bounds (S : Nat) : 1 ≤ newLevel S ∧ newLevel S ≤ 10 := by
  rw [newLevel_eq]
  omega

theorem placeFood_score (s t : State) (rng rest : List Draw)
    (h : placeFood s rng = .ok (t, rest)) : t.score = s.score := by
  obtain ⟨c, rfl, -⟩ := placeFood_ok s t rng rest h
  rfl

/-- What a step that eats leaves behind. -/
theorem step_eat_result (s t : State) (head : Cell) (tl : List Cell) (rng rest : List Draw)
    (hs : s.snake = head :: tl) (hc : ¬ Collides s (candidate s head))
    (hf : candidate s head = s.food) (h : step s rng = .ok (t, rest)) :
    t.snake = candidate s head :: s.snake ∧ t.grow = s.grow ∧ t.score = s.score + 10 ∧
    t.level = newLevel (s.score + 10) ∧ t.dir = (commitDir s).dir ∧
    t.food ∉ t.snake ∧ t.food ∉ t.obstacles ∧
    ((newLevel (s.score + 10) = s.level ∧ t.obstacles = s.obstacles) ∨
     (newLevel (s.score + 10) ≠ s.level ∧
      t.obstacles.length = (obstaclesFor (newLevel (s.score + 10))).toNat ∧
      t.obstacles.Nodup ∧ ∀ o ∈ t.obstacles, o ∉ t.snake ∧ InGrid o)) := by
  rw [step_eat s head tl rng hs hc hf] at h
  split at h
  · simp at h
  · rename_i t2 rest1 heat
    simp only [Except.ok.injEq, Prod.mk.injEq] at h
    obtain ⟨rfl, -⟩ := h
    obtain ⟨obs, c, rfl, hobs, hcs, hco, -⟩ := eat_ok _ _ _ _ heat
    obtain ⟨-, -, c3, c4, c5, -⟩ := commitDir_fields s
    simp only at hobs hcs
    simp only [growOrMoveTail, regenFoodTimer, GROW_PER_FOOD, gt_iff_lt, Nat.lt_add_one_iff,
      zero_le, if_true, Nat.add_sub_cancel, c3, c4, c5, true_and]
    refine ⟨hcs, hco, ?_⟩
    rw [c3, c4, commitDir_obstacles] at hobs
    rcases hobs with hobs | ⟨h1, h2, h3, h4⟩
    · exact Or.inl hobs
    · exact Or.inr ⟨h1, h2, h3, fun o ho => ⟨(h4 o ho).1, (h4 o ho).2.2⟩⟩

/-- What a step that moves without eating leaves behind. -/
theorem step_move_result (s t : State) (head : Cell) (tl : List Cell) (rng rest : List Draw)
    (hs : s.snake = head :: tl) (hc : ¬ Collides s (candidate s head))
    (hf : candidate s head ≠ s.food) (h : step s rng = .ok (t, rest)) :
    t.score = s.score ∧ t.dir = (commitDir s).dir ∧
    t.snake.head? = some (candidate s head) ∧
    (s.grow = 0 → t.snake.length = s.snake.length) := by
  rw [step_move s head tl rng hs hc hf] at h
  simp only [Except.ok.injEq, Prod.mk.injEq] at h
  obtain ⟨rfl, -⟩ := h
  obtain ⟨-, -, c3, -, c5, -⟩ := commitDir_fields s
  simp only [growOrMoveTail]
  split
  · rename_i hg
    refine ⟨c3, rfl, rfl, ?_⟩
    intro hg0
    simp only [c5, hg0, gt_iff_lt, lt_self_iff_false] at hg
  · refine ⟨c3, rfl, ?_, ?_⟩
    · simp only [hs, List.dropLast_cons₂, List.head?_cons]
    · intro _
      simp only [hs, List.dropLast_cons₂, List.length_cons, List.length_dropLast,
        Nat.add_sub_cancel]

/-! ## The claims -/

/-- C1: in every state reachable from `newGame()` by any sequence of `step()`,
`tickFoodTimer(dt)`, `togglePause()` and key inputs, whatever the random
draws, the cells of the snake are pairwise distinct and every snake cell
`(x,y)` has `0 ≤ x < 20` and `0 ≤ y < 20`. -/
theorem snake_distinct_in_grid (s : State) (h : Reachable s) :
    s.snake.Nodup ∧ ∀ c ∈ s.snake, 0 ≤ c.x ∧ c.x < 20 ∧ 0 ≤ c.y ∧ c.y < 20 := by
  obtain ⟨⟨h1, h2, -, -⟩, -⟩ := reachable_inv s h
  exact ⟨h1, fun c hc => h2 c hc⟩

/-- C1 at a concrete state: the game after the first food has been eaten is
reachable and its four snake cells are distinct and in the grid. -/
theorem snake_distinct_in_grid_witness :
    Reachable afterFirstFood ∧ afterFirstFood.snake.Nodup ∧
      ∀ c ∈ afterFirstFood.snake, 0 ≤ c.x ∧ c.x < 20 ∧ 0 ≤ c.y ∧ c.y < 20 :=
  have hr : Reachable afterFirstFood :=
    Reachable.next Op.step [drawOf 7 10 (by decide) (by decide)] [] freshAhead afterFirstFood
      (Reachable.init [drawOf 6 10 (by decide) (by decide)] [] freshAhead rfl) rfl
  ⟨hr, snake_distinct_in_grid afterFirstFood hr⟩

/-- C2: in every state reachable from `newGame()` by `step()` and
`tickFoodTimer(dt)` calls (and pause toggles and key inputs as well), the food
cell is not a snake cell and not an obstacle cell, no obstacle cell is a snake
cell, and the obstacle cells are pairwise distinct. -/
theorem food_obstacles_snake_disjoint (s : State) (h : Reachable s) :
    s.food ∉ s.snake ∧ s.food ∉ s.obstacles ∧ (∀ o ∈ s.obstacles, o ∉ s.snake) ∧
      s.obstacles.Nodup := by
  obtain ⟨⟨-, -, h3, h4⟩, h5, h6⟩ := reachable_inv s h
  exact ⟨h5, h6, h4, h3⟩

/-- C2 at a concrete state: the game after three foods, at level 2 with one
obstacle, is reachable and its food, obstacle and snake cells are apart. -/
theorem food_obstacles_snake_disjoint_witness :
    Reachable afterThirdFood ∧ afterThirdFood.obstacles = [⟨0, 0⟩] ∧
      afterThirdFood.food ∉ afterThirdFood.snake ∧
      afterThirdFood.food ∉ afterThirdFood.obstacles ∧
      (∀ o ∈ afterThirdFood.obstacles, o ∉ afterThirdFood.snake) ∧
      afterThirdFood.obstacles.Nodup :=
  have h0 : Reachable freshAhead :=
    Reachable.init [drawOf 6 10 (by decide) (by decide)] [] freshAhead rfl
  have h1 : Reachable afterFirstFood :=
    Reachable.next Op.step [drawOf 7 10 (by decide) (by decide)] [] freshAhead afterFirstFood
      h0 rfl
  have h2 : Reachable afterSecondFood :=
    Reachable.next Op.step [drawOf 8 10 (by decide) (by decide)] [] afterFirstFood
      afterSecondFood h1 rfl
  have h3 : Reachable afterThirdFood :=
    Reachable.next Op.step
      [drawOf 0 0 (by decide) (by decide), drawOf 1 1 (by decide) (by decide)] []
      afterSecondFood afterThirdFood h2 rfl
  ⟨h3, rfl, food_obstacles_snake_disjoint afterThirdFood h3⟩

/-- C3: for every playing state (`playing`, not `over`) with head `head`,
`step()` ends the game exactly when the candidate head, `head` plus the
committed heading, is outside the 20x20 grid, on an obstacle, or on a cell of
the current snake (its last cell included): on a collision the step returns
with `over = true`, `playing = false`; a step that returns has `over = true`
if and only if the candidate head collides, and otherwise leaves the state
playing and not over; and a step without collision that does not eat always
returns. -/
theorem step_over_iff_collision (s : State) (head : Cell) (tl : List Cell) (rng : List Draw)
    (hs : s.snake = head :: tl) (hplay : s.playing = true) (hover : s.over = false) :
    (Collides s (candidate s head) →
      ∃ t, step s rng = .ok (t, rng) ∧ t.over = true ∧ t.playing = false) ∧
    (∀ t rest, step s rng = .ok (t, rest) →
      (t.over = true ↔ Collides s (candidate s head)) ∧
      (¬ Collides s (candidate s head) → t.playing = true ∧ t.over = false)) ∧
    (¬ Collides s (candidate s head) → candidate s head ≠ s.food →
      ∃ t, step s rng = .ok (t, rng)) := by
  have key : ∀ t rest, step s rng = .ok (t, rest) → ¬ Collides s (candidate s head) →
      t.playing = true ∧ t.over = false := by
    intro t rest h hc
    obtain ⟨cp, co, -⟩ := commitDir_fields s
    by_cases hf : candidate s head = s.food
    · rw [step_eat s head tl rng hs hc hf] at h
      split at h
      · simp at h
      · rename_i t2 rest1 heat
        simp only [Except.ok.injEq, Prod.mk.injEq] at h
        obtain ⟨rfl, -⟩ := h
        obtain ⟨gp, go, -⟩ := growOrMoveTail_fields t2
        obtain ⟨obs, c, rfl, -⟩ := eat_ok _ _ _ _ heat
        rw [gp, go]
        simp only [regenFoodTimer]
        exact ⟨cp.trans hplay, co.trans hover⟩
    · rw [step_move s head tl rng hs hc hf] at h
      simp only [Except.ok.injEq, Prod.mk.injEq] at h
      obtain ⟨rfl, -⟩ := h
      obtain ⟨gp, go, -⟩ := growOrMoveTail_fields
        { commitDir s with snake := candidate s head :: s.snake }
      rw [gp, go]
      exact ⟨cp.trans hplay, co.trans hover⟩
  refine ⟨?_, ?_, ?_⟩
  · intro hc
    exact ⟨_, step_collision s head tl rng hs hc, rfl, rfl⟩
  · intro t rest h
    refine ⟨⟨?_, ?_⟩, key t rest h⟩
    · intro ho
      by_contra hc
      rw [(key t rest h hc).2] at ho
      cases ho
    · intro hc
      rw [step_collision s head tl rng hs hc] at h
      simp only [Except.ok.injEq, Prod.mk.injEq] at h
      obtain ⟨rfl, -⟩ := h
      rfl
  · intro hc hf
    exact ⟨_, step_move s head tl rng hs hc hf⟩

/-- C3 at a concrete state: a playing snake heading right from the last column,
candidate head `(20,10)`. -/
theorem step_over_iff_collision_witness :
    (Collides atRightWall ⟨20, 10⟩ →
      ∃ t, step atRightWall [] = .ok (t, []) ∧ t.over = true ∧ t.playing = false) ∧
    (∀ t rest, step atRightWall [] = .ok (t, rest) →
      (t.over = true ↔ Collides atRightWall ⟨20, 10⟩) ∧
      (¬ Collides atRightWall ⟨20, 10⟩ → t.playing = true ∧ t.over = false)) ∧
    (¬ Collides atRightWall ⟨20, 10⟩ → (⟨20, 10⟩ : Cell) ≠ atRightWall.food →
      ∃ t, step atRightWall [] = .ok (t, [])) :=
  step_over_iff_collision atRightWall ⟨19, 10⟩ [⟨18, 10⟩, ⟨17, 10⟩] [] rfl rfl rfl

/-- C4: for every state with head `head` whose candidate head is a collision,
`step()` returns without drawing, sets `playing = false` and `over = true`,
and leaves `snake`, `grow`, `food`, `foodTTL`, `foodTimer`, `score`, `level`,
`obstacles` and `paused` unchanged. -/
theorem step_collision_frame (s : State) (head : Cell) (tl : List Cell) (rng : List Draw)
    (hs : s.snake = head :: tl) (hc : Collides s (candidate s head)) :
    ∃ t, step s rng = .ok (t, rng) ∧ t.playing = false ∧ t.over = true ∧
      t.snake = s.snake ∧ t.grow = s.grow ∧ t.food = s.food ∧ t.foodTTL = s.foodTTL ∧
      t.foodTimer = s.foodTimer ∧ t.score = s.score ∧ t.level = s.level ∧
      t.obstacles = s.obstacles ∧ t.paused = s.paused := by
  obtain ⟨-, -, c3, c4, c5, c6, c7, c8, -⟩ := commitDir_fields s
  exact ⟨_, step_collision s head tl rng hs hc, rfl, rfl, commitDir_snake s, c5,
    commitDir_food s, c7, c8, c3, c4, commitDir_obstacles s, c6⟩

/-- C4 at a concrete state: the head moves from `(19,10)` to `(20,10)`, that is
`x = GRID`. -/
theorem step_collision_frame_witness :
    atRightWall.playing = true ∧ candidate atRightWall ⟨19, 10⟩ = ⟨20, 10⟩ ∧
    ∃ t, step atRightWall [] = .ok (t, []) ∧ t.playing = false ∧ t.over = true ∧
      t.snake = [⟨19, 10⟩, ⟨18, 10⟩, ⟨17, 10⟩] ∧ t.grow = 0 ∧ t.food = ⟨3, 3⟩ ∧
      t.foodTTL = 8 ∧ t.foodTimer = 8 ∧ t.score = 0 ∧ t.level = 1 ∧
      t.obstacles = [] ∧ t.paused = false :=
  ⟨rfl, rfl,
    step_collision_frame atRightWall ⟨19, 10⟩ [⟨18, 10⟩, ⟨17, 10⟩] [] rfl (by decide)⟩

/-- C5: for every state with `grow = 0` and head `head` whose candidate head is
in the grid, on no obstacle, on no snake cell and not on the food, `step()`
returns without drawing and the new snake is the candidate head followed by
the old snake without its last cell; the length, `score`, `level`, `food` and
`obstacles` are unchanged. -/
theorem step_plain_move (s : State) (head : Cell) (tl : List Cell) (rng : List Draw)
    (hs : s.snake = head :: tl) (hg : s.grow = 0)
    (hc : ¬ Collides s (candidate s head)) (hf : candidate s head ≠ s.food) :
    ∃ t, step s rng = .ok (t, rng) ∧ t.snake = candidate s head :: s.snake.dropLast ∧
      t.snake.length = s.snake.length ∧ t.score = s.score ∧ t.level = s.level ∧
      t.food = s.food ∧ t.obstacles = s.obstacles := by
  obtain ⟨-, -, c3, c4, c5, -⟩ := commitDir_fields s
  obtain ⟨-, -, g3, g4, g5, g6, -⟩ := growOrMoveTail_fields
    { commitDir s with snake := candidate s head :: s.snake }
  have hsnake : (growOrMoveTail { commitDir s with snake := candidate s head :: s.snake }).snake
      = candidate s head :: s.snake.dropLast := by
    have hg0 : ¬ (commitDir s).grow > 0 := by rw [c5, hg]; exact lt_irrefl 0
    simp only [growOrMoveTail]
    rw [if_neg hg0, hs]
    rfl
  refine ⟨_, step_move s head tl rng hs hc hf, hsnake, ?_, g3.trans c3, g4.trans c4,
    g5.trans (commitDir_food s), g6.trans (commitDir_obstacles s)⟩
  rw [hsnake, hs]
  simp

/-- C5 at the scenario of the specification: snake `[(5,10),(4,10),(3,10)]`,
heading `(1,0)`, no obstacles; one step gives head `(6,10)`, drops `(3,10)`
and keeps length 3. -/
theorem step_plain_move_witness :
    plainMove.snake = [⟨5, 10⟩, ⟨4, 10⟩, ⟨3, 10⟩] ∧ plainMove.dir = ⟨1, 0⟩ ∧
    plainMove.obstacles = [] ∧
    ∃ t, step plainMove [] = .ok (t, []) ∧ t.snake = [⟨6, 10⟩, ⟨5, 10⟩, ⟨4, 10⟩] ∧
      t.snake.length = 3 ∧ t.score = 0 ∧ t.level = 1 ∧ t.food = ⟨3, 3⟩ ∧
      t.obstacles = [] :=
  ⟨rfl, rfl, rfl,
    step_plain_move plainMove ⟨5, 10⟩ [⟨4, 10⟩, ⟨3, 10⟩] [] rfl rfl (by decide) (by decide)⟩

/-- C6: a `step()` whose candidate head is no collision and is the food cell
raises `score` by exactly 10; a `step()` whose candidate head is not the food
cell leaves `score` unchanged; no operation other than a new game (`step`,
`tickFoodTimer`, `togglePause`, any key but `r`) lowers `score`; and from a
state with a head and room on the grid the step returns for suitable draws. -/
theorem score_changes :
    (∀ (s t : State) (head : Cell) (tl : List Cell) (rng rest : List Draw),
      s.snake = head :: tl → step s rng = .ok (t, rest) →
      (¬ Collides s (candidate s head) → candidate s head = s.food →
        t.score = s.score + 10) ∧
      (candidate s head ≠ s.food → t.score = s.score)) ∧
    (∀ (op : Op) (s t : State) (rng rest : List Draw),
      op ≠ Op.key Key.r → op.run s rng = .ok (t, rest) → s.score ≤ t.score) ∧
    (∀ (s : State) (head : Cell) (tl : List Cell), s.snake = head :: tl →
      s.snake.length + s.obstacles.length + 14 ≤ GRID * GRID →
      ∃ rng t, step s rng = .ok (t, [])) := by
  have hstep : ∀ (s t : State) (head : Cell) (tl : List Cell) (rng rest : List Draw),
      s.snake = head :: tl → step s rng = .ok (t, rest) →
      (¬ Collides s (candidate s head) → candidate s head = s.food →
        t.score = s.score + 10) ∧
      (candidate s head ≠ s.food → t.score = s.score) := by
    intro s t head tl rng rest hs h
    refine ⟨fun hc hf => (step_eat_result s t head tl rng rest hs hc hf h).2.2.1, ?_⟩
    intro hf
    by_cases hc : Collides s (candidate s head)
    · rw [step_collision s head tl rng hs hc] at h
      simp only [Except.ok.injEq, Prod.mk.injEq] at h
      obtain ⟨rfl, -⟩ := h
      exact (commitDir_fields s).2.2.1
    · exact (step_move_result s t head tl rng rest hs hc hf h).1
  refine ⟨hstep, ?_, fun s head tl hs hroom => step_returns s head tl hs hroom⟩
  intro op s t rng rest hop h
  cases op with
  | step =>
    simp only [Op.run] at h
    cases hs : s.snake with
    | nil => rw [step_empty s rng hs] at h; simp at h
    | cons head tl =>
      obtain ⟨h1, h2⟩ := hstep s t head tl rng rest hs h
      by_cases hf : candidate s head = s.food
      · by_cases hc : Collides s (candidate s head)
        · rw [step_collision s head tl rng hs hc] at h
          simp only [Except.ok.injEq, Prod.mk.injEq] at h
          obtain ⟨rfl, -⟩ := h
          exact le_of_eq (commitDir_fields s).2.2.1.symm
        · rw [h1 hc hf]
          exact Nat.le_add_right _ _
      · exact le_of_eq (h2 hf).symm
  | tick dt =>
    simp only [Op.run, tickFoodTimer] at h
    split at h
    · exact le_of_eq (placeFood_score _ t rng rest h).symm
    · simp only [Except.ok.injEq, Prod.mk.injEq] at h
      obtain ⟨rfl, -⟩ := h
      exact le_refl _
  | togglePause force =>
    simp only [Op.run, Except.ok.injEq, Prod.mk.injEq] at h
    obtain ⟨rfl, -⟩ := h
    unfold togglePause
    split <;> exact le_refl _
  | key k =>
    cases k <;> simp only [Op.run, keydown, Except.ok.injEq, Prod.mk.injEq] at h
    case r => exact absurd rfl hop
    case p =>
      obtain ⟨rfl, -⟩ := h
      unfold togglePause
      split <;> exact le_refl _
    all_goals
      obtain ⟨rfl, -⟩ := h
      exact le_refl _

/-- C6 at concrete states: eating the food at `(6,10)` takes the score from 0 to
10, a plain move keeps it, and the eating step returns. -/
theorem score_changes_witness :
    afterFirstFood.score = freshAhead.score + 10 ∧
    (growOrMoveTail { commitDir plainMove with snake := ⟨6, 10⟩ :: plainMove.snake }).score
      = plainMove.score ∧
    freshAhead.score ≤ afterFirstFood.score ∧
    ∃ rng t, step freshAhead rng = .ok (t, []) :=
  ⟨(score_changes.1 freshAhead afterFirstFood ⟨5, 10⟩ [⟨4, 10⟩, ⟨3, 10⟩]
      [drawOf 7 10 (by decide) (by decide)] [] rfl rfl).1 (by decide) rfl,
   (score_changes.1 plainMove _ ⟨5, 10⟩ [⟨4, 10⟩, ⟨3, 10⟩] [] [] rfl rfl).2 (by decide),
   score_changes.2.1 Op.step freshAhead afterFirstFood
      [drawOf 7 10 (by decide) (by decide)] [] (by simp) rfl,
   score_changes.2.2 freshAhead ⟨5, 10⟩ [⟨4, 10⟩, ⟨3, 10⟩] rfl (by decide)⟩

/-- C7, the claim as written fails: in the fresh game `freshAhead`, which is
reachable, the step eats the food at `(6,10)`; the snake had 3 cells before
the step and has 4 cells right after it. -/
theorem eating_keeps_length_counterexample :
    Reachable freshAhead ∧ candidate freshAhead ⟨5, 10⟩ = freshAhead.food ∧
    ¬ Collides freshAhead (candidate freshAhead ⟨5, 10⟩) ∧
    step freshAhead [drawOf 7 10 (by decide) (by decide)] = .ok (afterFirstFood, []) ∧
    freshAhead.snake.length = 3 ∧ afterFirstFood.snake.length = 4 ∧
    afterFirstFood.snake.length ≠ freshAhead.snake.length :=
  ⟨Reachable.init [drawOf 6 10 (by decide) (by decide)] [] freshAhead rfl, rfl, by decide,
    rfl, rfl, rfl, by decide⟩

/-- C7 as amended: when `step()` eats food the snake gets longer in that same
step: the new snake is the candidate head followed by the whole old snake, its
length is the old length plus 1, and `grow` is what it was before the step
(the credit is added and consumed within the step); so after an eating step
from `grow = 0`, a following step that moves without eating keeps that
length. -/
theorem eating_step_grows_at_once (s t : State) (head : Cell) (tl : List Cell)
    (rng rest : List Draw) (hs : s.snake = head :: tl)
    (hc : ¬ Collides s (candidate s head)) (hf : candidate s head = s.food)
    (h : step s rng = .ok (t, rest)) :
    t.snake = candidate s head :: s.snake ∧ t.snake.length = s.snake.length + 1 ∧
    t.grow = s.grow ∧
    (s.grow = 0 → ∀ (u : State) (head2 : Cell) (tl2 : List Cell) (rng2 rest2 : List Draw),
      t.snake = head2 :: tl2 → ¬ Collides t (candidate t head2) →
      candidate t head2 ≠ t.food → step t rng2 = .ok (u, rest2) →
      u.snake.length = s.snake.length + 1) := by
  obtain ⟨h1, h2, -⟩ := step_eat_result s t head tl rng rest hs hc hf h
  have hlen : t.snake.length = s.snake.length + 1 := by rw [h1, List.length_cons]
  refine ⟨h1, hlen, h2, ?_⟩
  intro hg u head2 tl2 rng2 rest2 ht hc2 hf2 hu
  rw [← hlen]
  exact (step_move_result t u head2 tl2 rng2 rest2 ht hc2 hf2 hu).2.2.2 (h2.trans hg)

/-- C7 as amended, at concrete states: eating at `(6,10)` gives 4 cells at once
with `grow = 0`, and the next plain step still has 4 cells. -/
theorem eating_step_grows_at_once_witness :
    ateFoodAway.snake = ⟨6, 10⟩ :: freshAhead.snake ∧
    ateFoodAway.snake.length = 3 + 1 ∧ ateFoodAway.grow = 0 ∧
    movedAfterFood.snake.length = 3 + 1 :=
  have h := eating_step_grows_at_once freshAhead ateFoodAway ⟨5, 10⟩ [⟨4, 10⟩, ⟨3, 10⟩]
    [drawOf 3 3 (by decide) (by decide)] [] rfl (by decide) rfl rfl
  ⟨h.1, h.2.1, h.2.2.1,
    h.2.2.2 rfl movedAfterFood ⟨6, 10⟩ [⟨5, 10⟩, ⟨4, 10⟩, ⟨3, 10⟩] [] [] rfl (by decide)
      (by decide) rfl⟩

/-- C8: for every state with head `head` on which `step()` returns: if
`nextDir` is the exact negation of `dir`, `dir` is left unchanged and the
candidate head is `head + dir` for the old `dir`; if it is not, the step
commits `dir = nextDir` and the candidate head is `head + nextDir`.  In both
cases the candidate head is the head of the snake after a step without
collision. -/
theorem reversal_guard (s t : State) (head : Cell) (tl : List Cell) (rng rest : List Draw)
    (hs : s.snake = head :: tl) (h : step s rng = .ok (t, rest)) :
    (IsReverse s →
      t.dir = s.dir ∧ candidate s head = ⟨head.x + s.dir.x, head.y + s.dir.y⟩ ∧
      (¬ Collides s (candidate s head) →
        t.snake.head? = some ⟨head.x + s.dir.x, head.y + s.dir.y⟩)) ∧
    (¬ IsReverse s →
      t.dir = s.nextDir ∧ candidate s head = ⟨head.x + s.nextDir.x, head.y + s.nextDir.y⟩ ∧
      (¬ Collides s (candidate s head) →
        t.snake.head? = some ⟨head.x + s.nextDir.x, head.y + s.nextDir.y⟩)) := by
  have hdir : t.dir = (commitDir s).dir := by
    by_cases hc : Collides s (candidate s head)
    · rw [step_collision s head tl rng hs hc] at h
      simp only [Except.ok.injEq, Prod.mk.injEq] at h
      obtain ⟨rfl, -⟩ := h
      rfl
    · by_cases hf : candidate s head = s.food
      · exact (step_eat_result s t head tl rng rest hs hc hf h).2.2.2.2.1
      · exact (step_move_result s t head tl rng rest hs hc hf h).2.1
  have hhead : ¬ Collides s (candidate s head) → t.snake.head? = some (candidate s head) := by
    intro hc
    by_cases hf : candidate s head = s.food
    · rw [(step_eat_result s t head tl rng rest hs hc hf h).1]
      rfl
    · exact (step_move_result s t head tl rng rest hs hc hf h).2.2.1
  constructor
  · intro hrev
    have hcd := commitDir_dir_of_reverse s hrev
    have hcand : candidate s head = ⟨head.x + s.dir.x, head.y + s.dir.y⟩ := by
      simp only [candidate, hcd]
    exact ⟨hdir.trans hcd, hcand, fun hc => hcand ▸ hhead hc⟩
  · intro hrev
    have hcd := commitDir_dir_of_not_reverse s hrev
    have hcand : candidate s head = ⟨head.x + s.nextDir.x, head.y + s.nextDir.y⟩ := by
      simp only [candidate, hcd]
    exact ⟨hdir.trans hcd, hcand, fun hc => hcand ▸ hhead hc⟩

/-- C8 at concrete states: with heading `(1,0)`, a pressed left key is ignored
and the head goes to `(6,10)`; a pressed up key is committed and the head
goes to `(5,9)`. -/
theorem reversal_guard_witness :
    (IsReverse reversePressed ∧
      ∃ t, step reversePressed [] = .ok (t, []) ∧ t.dir = ⟨1, 0⟩ ∧
        t.snake.head? = some ⟨6, 10⟩) ∧
    (¬ IsReverse upPressed ∧
      ∃ t, step upPressed [] = .ok (t, []) ∧ t.dir = ⟨0, -1⟩ ∧
        t.snake.head? = some ⟨5, 9⟩) :=
  ⟨⟨by decide, _, rfl,
      ((reversal_guard reversePressed _ ⟨5, 10⟩ [⟨4, 10⟩, ⟨3, 10⟩] [] [] rfl rfl).1
        (by decide)).1,
      ((reversal_guard reversePressed _ ⟨5, 10⟩ [⟨4, 10⟩, ⟨3, 10⟩] [] [] rfl rfl).1
        (by decide)).2.2 (by decide)⟩,
   ⟨by decide, _, rfl,
      ((reversal_guard upPressed _ ⟨5, 10⟩ [⟨4, 10⟩, ⟨3, 10⟩] [] [] rfl rfl).2
        (by decide)).1,
      ((reversal_guard upPressed _ ⟨5, 10⟩ [⟨4, 10⟩, ⟨3, 10⟩] [] [] rfl rfl).2
        (by decide)).2.2 (by decide)⟩⟩

/-- C9: for every score `S` the level that `levelUpIfNeeded()` computes is
`min(1 + floor(S/30), 10)`, 10 being the length of `SPEEDS`; this function of
`S` is monotonic non-decreasing; and it is the level of the record after
`levelUpIfNeeded()` has returned. -/
theorem level_of_score :
    (∀ S : Nat, newLevel S = min (1 + ((S / 30 : Nat) : Int)) 10) ∧
    SPEEDS.length = 10 ∧
    (∀ S1 S2 : Nat, S1 ≤ S2 → newLevel S1 ≤ newLevel S2) ∧
    (∀ (s t : State) (rng rest : List Draw), levelUpIfNeeded s rng = .ok (t, rest) →
      t.level = min (1 + ((s.score / 30 : Nat) : Int)) 10) := by
  refine ⟨newLevel_eq, rfl, ?_, ?_⟩
  · intro S1 S2 hle
    rw [newLevel_eq, newLevel_eq]
    have hdiv : S1 / 30 ≤ S2 / 30 := Nat.div_le_div_right hle
    omega
  · intro s t rng rest h
    rw [← newLevel_eq]
    rcases levelUpIfNeeded_ok s t rng rest h with ⟨heq, rfl, -⟩ | ⟨-, obs, rfl, -⟩
    · exact heq.symm
    · rfl

/-- C9 at concrete scores: 29 gives level 1, 30 gives level 2, 1000 gives level
10, and `levelUpIfNeeded()` at score 30 leaves level 2. -/
theorem level_of_score_witness :
    newLevel 29 = 1 ∧ newLevel 30 = 2 ∧ newLevel 1000 = 10 ∧ newLevel 29 ≤ newLevel 30 ∧
    (∃ t, levelUpIfNeeded scoreThirty [drawOf 0 0 (by decide) (by decide)] = .ok (t, []) ∧
      t.level = 2) :=
  ⟨level_of_score.1 29, level_of_score.1 30, level_of_score.1 1000,
    level_of_score.2.2.1 29 30 (by decide),
    _, rfl, level_of_score.2.2.2 scoreThirty _ [drawOf 0 0 (by decide) (by decide)] [] rfl⟩

/-- C10: whenever `levelUpIfNeeded()` changes the level to `L`, the obstacles
are replaced by exactly `obstaclesFor(L) = min(L-1, 12)` pairwise distinct
cells of the grid, none of them a snake cell or the food cell; when the level
does not change the record, obstacles included, is left as it was.  Level 1
has zero obstacles (`obstaclesFor(1) = 0`, and a new game starts at level 1
without obstacles), and the step that brings the score from 20 to 30 at level 1
leaves level 2 with exactly 1 obstacle, off the snake and off the food.  With
room on the grid `levelUpIfNeeded()` returns for suitable draws. -/
theorem levelUp_rebuilds_obstacles :
    (∀ (s t : State) (rng rest : List Draw), levelUpIfNeeded s rng = .ok (t, rest) →
      newLevel s.score ≠ s.level →
      t.level = newLevel s.score ∧ (t.obstacles.length : Int) = obstaclesFor t.level ∧
      obstaclesFor t.level = min (t.level - 1) 12 ∧ t.obstacles.Nodup ∧
      (∀ o ∈ t.obstacles, InGrid o ∧ o ∉ t.snake ∧ o ≠ t.food) ∧
      t.snake = s.snake ∧ t.food = s.food) ∧
    (∀ (s t : State) (rng rest : List Draw), levelUpIfNeeded s rng = .ok (t, rest) →
      newLevel s.score = s.level → t = s ∧ rest = rng) ∧
    (obstaclesFor 1 = 0 ∧
      ∀ (s : State) (rng rest : List Draw), newGame rng = .ok (s, rest) →
        s.level = 1 ∧ s.obstacles = []) ∧
    (∀ (s t : State) (head : Cell) (tl : List Cell) (rng rest : List Draw),
      s.snake = head :: tl → s.score = 20 → s.level = 1 →
      ¬ Collides s (candidate s head) → candidate s head = s.food →
      step s rng = .ok (t, rest) →
      t.score = 30 ∧ t.level = 2 ∧ t.obstacles.length = 1 ∧
      ∀ o ∈ t.obstacles, InGrid o ∧ o ∉ t.snake ∧ o ≠ t.food) ∧
    (∀ s : State, s.snake.length + 13 ≤ GRID * GRID →
      ∃ rng t, levelUpIfNeeded s rng = .ok (t, [])) := by
  refine ⟨?_, ?_, ⟨rfl, ?_⟩, ?_, levelUpIfNeeded_returns⟩
  · intro s t rng rest h hne
    rcases levelUpIfNeeded_ok s t rng rest h with ⟨heq, -, -⟩ | ⟨-, obs, rfl, hlen, hnd, hmem⟩
    · exact absurd heq hne
    · have hb := newLevel_bounds s.score
      refine ⟨rfl, ?_, rfl, hnd, fun o ho => ⟨(hmem o ho).2.2, (hmem o ho).1, (hmem o ho).2.1⟩,
        rfl, rfl⟩
      simp only [hlen, obstaclesFor]
      omega
  · intro s t rng rest h heq
    rcases levelUpIfNeeded_ok s t rng rest h with ⟨-, ht, hr⟩ | ⟨hne, -⟩
    · exact ⟨ht, hr⟩
    · exact absurd heq hne
  · intro s rng rest h
    unfold newGame at h
    simp only at h
    split at h
    · simp at h
    · rename_i obs rest1 hbuild
      obtain ⟨hlen, -, -⟩ := buildObstacles_ok _ _ obs rng rest1 hbuild
      obtain ⟨c, rfl, -⟩ := placeFood_ok _ s rest1 rest h
      have hnil : obs = [] := List.length_eq_zero.1 hlen
      exact ⟨rfl, hnil⟩
  · intro s t head tl rng rest hs hsc hlv hc hf h
    obtain ⟨-, -, h3, h4, -, -, h7, h8⟩ := step_eat_result s t head tl rng rest hs hc hf h
    rw [hsc] at h3 h4 h8
    have hl2 : newLevel (20 + 10) = 2 := rfl
    rw [hl2] at h4 h8
    rcases h8 with ⟨h8, -⟩ | ⟨-, hlen, -, hmem⟩
    · rw [hlv] at h8
      cases h8
    · refine ⟨h3, h4, hlen, fun o ho => ⟨(hmem o ho).2, (hmem o ho).1, ?_⟩⟩
      rintro rfl
      exact h7 ho

/-- C10 at concrete states: at score 30 and level 1 the level becomes 2 with the
single obstacle drawn at `(0,0)`, and so does the third eating step of a
game. -/
theorem levelUp_rebuilds_obstacles_witness :
    (∃ t, levelUpIfNeeded scoreThirty [drawOf 0 0 (by decide) (by decide)] = .ok (t, []) ∧
      t.level = 2 ∧ t.obstacles = [⟨0, 0⟩] ∧ (t.obstacles.length : Int) = obstaclesFor 2) ∧
    (afterThirdFood.score = 30 ∧ afterThirdFood.level = 2 ∧
      afterThirdFood.obstacles.length = 1 ∧
      ∀ o ∈ afterThirdFood.obstacles,
        InGrid o ∧ o ∉ afterThirdFood.snake ∧ o ≠ afterThirdFood.food) :=
  ⟨⟨_, rfl, rfl, rfl,
      (levelUp_rebuilds_obstacles.1 scoreThirty _ [drawOf 0 0 (by decide) (by decide)] []
        rfl (by decide)).2.1⟩,
    levelUp_rebuilds_obstacles.2.2.2.1 afterSecondFood afterThirdFood ⟨7, 10⟩
      [⟨6, 10⟩, ⟨5, 10⟩, ⟨4, 10⟩, ⟨3, 10⟩]
      [drawOf 0 0 (by decide) (by decide), drawOf 1 1 (by decide) (by decide)] []
      rfl rfl rfl (by decide) rfl rfl⟩

/-! ## Shapes of the results -/

theorem newGame_shape (s : State) (rng rest : List Draw) (h : newGame rng = .ok (s, rest)) :
    ∃ c, s = regenFoodTimer { initialRecord with food := c } ∧
      c ∉ initialRecord.snake ∧ InGrid c := by
  unfold newGame at h
  simp only at h
  split at h
  · simp at h
  · rename_i obs rest1 hbuild
    obtain ⟨hlen, -, -⟩ := buildObstacles_ok _ _ obs rng rest1 hbuild
    have hnil : obs = [] := List.length_eq_zero.1 hlen
    subst hnil
    obtain ⟨c, rfl, hcs, -, hcg⟩ := placeFood_ok _ s rest1 rest h
    exact ⟨c, rfl, hcs, hcg⟩

theorem tickFoodTimer_shape (dt : ℚ) (s t : State) (rng rest : List Draw)
    (h : tickFoodTimer dt s rng = .ok (t, rest)) :
    (0 < toDouble (s.foodTimer - dt) ∧
      t = { s with foodTimer := toDouble (s.foodTimer - dt) } ∧ rest = rng) ∨
    (toDouble (s.foodTimer - dt) ≤ 0 ∧
      ∃ c, t = regenFoodTimer { s with foodTimer := toDouble (s.foodTimer - dt), food := c } ∧
        freeRandomCell s rng = .ok (c, rest) ∧
        c ∉ s.snake ∧ c ∉ s.obstacles ∧ InGrid c) := by
  unfold tickFoodTimer at h
  simp only at h
  split at h
  · rename_i hle
    right
    obtain ⟨c, hfree, rfl⟩ := placeFood_eq _ t rng rest h
    have hfree2 : freeRandomCell s rng = .ok (c, rest) :=
      (freeRandomCell_congr s { s with foodTimer := toDouble (s.foodTimer - dt) } rng
        rfl rfl).symm.trans hfree
    exact ⟨hle, c, rfl, hfree2, freeRandomCell_ok s rng rest c hfree2⟩
  · rename_i hgt
    left
    simp only [Except.ok.injEq, Prod.mk.injEq] at h
    exact ⟨lt_of_not_le hgt, h.1.symm, h.2.symm⟩

theorem togglePause_shape (force : Option Bool) (s : State) :
    ∃ b, togglePause force s = { s with paused := b } := by
  unfold togglePause
  split
  · exact ⟨s.paused, rfl⟩
  · exact ⟨_, rfl⟩

/-- What a step that eats returns, field by field. -/
theorem step_eat_shape (s t : State) (head : Cell) (tl : List Cell) (rng rest : List Draw)
    (hs : s.snake = head :: tl) (hc : ¬ Collides s (candidate s head))
    (hf : candidate s head = s.food) (h : step s rng = .ok (t, rest)) :
    ∃ obs c, t =
      { s with dir := (commitDir s).dir, snake := candidate s head :: s.snake,
               score := s.score + 10, level := newLevel (s.score + 10),
               obstacles := obs, food := c,
               foodTTL := foodTTL (newLevel (s.score + 10)),
               foodTimer := ((foodTTL (newLevel (s.score + 10)) : Int) : ℚ) } ∧
      ((newLevel (s.score + 10) = s.level ∧ obs = s.obstacles) ∨
       (newLevel (s.score + 10) ≠ s.level ∧
        obs.length = (obstaclesFor (newLevel (s.score + 10))).toNat)) := by
  rw [step_eat s head tl rng hs hc hf] at h
  split at h
  · simp at h
  · rename_i t2 rest1 heat
    simp only [Except.ok.injEq, Prod.mk.injEq] at h
    obtain ⟨rfl, -⟩ := h
    obtain ⟨obs, c, rfl, hobs, -⟩ := eat_ok _ _ _ _ heat
    obtain ⟨c1, c2, c3, c4, c5, c6, c7, c8, c9⟩ := commitDir_fields s
    refine ⟨obs, c, ?_, ?_⟩
    · simp only [growOrMoveTail, regenFoodTimer, GROW_PER_FOOD, gt_iff_lt, Nat.lt_add_one_iff,
        zero_le, if_true, Nat.add_sub_cancel, c1, c2, c3, c4, c5, c6, c9]
    · rw [c3, c4, commitDir_obstacles] at hobs
      rcases hobs with hobs | ⟨h1, h2, -⟩
      · exact Or.inl hobs
      · exact Or.inr ⟨h1, h2⟩

/-- What a step that moves without eating returns, field by field. -/
theorem step_move_shape (s : State) (head : Cell) (tl : List Cell) (rng : List Draw)
    (hs : s.snake = head :: tl) (hc : ¬ Collides s (candidate s head))
    (hf : candidate s head ≠ s.food) :
    step s rng = .ok
      (if s.grow > 0 then
        { s with dir := (commitDir s).dir, snake := candidate s head :: s.snake,
                 grow := s.grow - 1 }
       else
        { s with dir := (commitDir s).dir,
                 snake := (candidate s head :: s.snake).dropLast }, rng) := by
  rw [step_move s head tl rng hs hc hf]
  obtain ⟨c1, c2, c3, c4, c5, c6, c7, c8, c9⟩ := commitDir_fields s
  simp only [growOrMoveTail, c5]
  split
  · simp only [c1, c2, c3, c4, c6, c7, c8, c9, commitDir_food, commitDir_obstacles]
  · simp only [c1, c2, c3, c4, c5, c6, c7, c8, c9, commitDir_food, commitDir_obstacles]

/-- What a step that collides returns, field by field. -/
theorem step_collision_shape (s : State) (head : Cell) (tl : List Cell) (rng : List Draw)
    (hs : s.snake = head :: tl) (hc : Collides s (candidate s head)) :
    step s rng = .ok ({ s with dir := (commitDir s).dir, playing := false, over := true }, rng) := by
  rw [step_collision s head tl rng hs hc]
  obtain ⟨c1, c2, c3, c4, c5, c6, c7, c8, c9⟩ := commitDir_fields s
  simp only [gameOver, c3, c4, c5, c6, c7, c8, c9, commitDir_food, commitDir_obstacles,
    commitDir_snake]

/-! ## The invariant of counters, flags and heading -/

theorem dir_eq_sub (d : Dir) (head : Cell) :
    d = ⟨head.x + d.x - head.x, head.y + d.y - head.y⟩ := by
  cases d
  simp

/-- A record that agrees with one satisfying the invariant on the fields the
invariant reads, up to a food lifetime set afresh, satisfies it too. -/
theorem gameInv_congr (s t : State) (hp : t.playing = s.playing) (ho : t.over = s.over)
    (hl : t.level = s.level) (hsc : t.score = s.score) (hob : t.obstacles = s.obstacles)
    (hg : t.grow = s.grow) (hsn : t.snake = s.snake) (hd : t.dir = s.dir)
    (httl : t.foodTTL = s.foodTTL ∨ t.foodTTL = foodTTL t.level) (h : GameInv s) :
    GameInv t := by
  obtain ⟨h1, ⟨h2, h3, h4⟩, ⟨h5, h6, h8⟩, h7⟩ := h
  refine ⟨?_, ⟨?_, ?_, ?_⟩, ⟨?_, ?_, ?_⟩, ?_⟩
  · unfold FlagsOK at h1 ⊢
    rw [hp, ho, h1]
  · rw [hl, hsc, h2]
  · rw [hob, hl, h3]
  · rcases httl with httl | httl
    · rw [httl, hl, h4]
    · exact httl
  · rw [hg, h5]
  · rw [hsn, hsc, h6]
  · rw [hsc, h8]
  · intro hover
    rw [ho] at hover
    obtain ⟨head, neck, tl, hs, hdir⟩ := h7 hover
    exact ⟨head, neck, tl, hsn.trans hs, hd.trans hdir⟩

theorem newGame_gameInv (s : State) (rng rest : List Draw) (h : newGame rng = .ok (s, rest)) :
    GameInv s := by
  obtain ⟨c, rfl, -, -⟩ := newGame_shape s rng rest h
  refine ⟨rfl, ⟨?_, ?_, rfl⟩, ⟨rfl, ?_, rfl⟩, ?_⟩
  · show initialRecord.level = newLevel initialRecord.score
    decide
  · show initialRecord.obstacles.length = (obstaclesFor initialRecord.level).toNat
    decide
  · show initialRecord.snake.length = 3 + initialRecord.score / 10
    decide
  · intro _
    exact ⟨⟨5, 10⟩, ⟨4, 10⟩, [⟨3, 10⟩], rfl, rfl⟩

theorem tickFoodTimer_gameInv (dt : ℚ) (s t : State) (rng rest : List Draw) (hi : GameInv s)
    (h : tickFoodTimer dt s rng = .ok (t, rest)) : GameInv t := by
  rcases tickFoodTimer_shape dt s t rng rest h with ⟨-, rfl, -⟩ | ⟨-, c, rfl, -⟩
  · exact gameInv_congr s _ rfl rfl rfl rfl rfl rfl rfl rfl (Or.inl rfl) hi
  · exact gameInv_congr s _ rfl rfl rfl rfl rfl rfl rfl rfl (Or.inr rfl) hi

theorem togglePause_gameInv (force : Option Bool) (s : State) (hi : GameInv s) :
    GameInv (togglePause force s) := by
  obtain ⟨b, hb⟩ := togglePause_shape force s
  rw [hb]
  exact gameInv_congr s _ rfl rfl rfl rfl rfl rfl rfl rfl (Or.inl rfl) hi

theorem keydown_gameInv (k : Key) (s t : State) (rng rest : List Draw) (hi : GameInv s)
    (h : keydown k s rng = .ok (t, rest)) : GameInv t := by
  cases k <;> simp only [keydown, Except.ok.injEq, Prod.mk.injEq] at h
  case r => exact newGame_gameInv t rng rest h
  case p =>
    obtain ⟨rfl, -⟩ := h
    exact togglePause_gameInv none s hi
  all_goals
    obtain ⟨rfl, -⟩ := h
    exact gameInv_congr s _ rfl rfl rfl rfl rfl rfl rfl rfl (Or.inl rfl) hi

theorem step_gameInv (s t : State) (rng rest : List Draw) (hi : GameInv s)
    (h : step s rng = .ok (t, rest)) : GameInv t := by
  cases hs : s.snake with
  | nil => rw [step_empty s rng hs] at h; simp at h
  | cons head tl =>
    obtain ⟨h1, ⟨h2, h3, h4⟩, ⟨h5, h6, h8⟩, -⟩ := hi
    by_cases hc : Collides s (candidate s head)
    · rw [step_collision_shape s head tl rng hs hc] at h
      simp only [Except.ok.injEq, Prod.mk.injEq] at h
      obtain ⟨rfl, -⟩ := h
      refine ⟨rfl, ⟨h2, h3, h4⟩, ⟨h5, h6, h8⟩, ?_⟩
      intro hover
      cases hover
    · by_cases hf : candidate s head = s.food
      · obtain ⟨obs, c, rfl, hobs⟩ := step_eat_shape s t head tl rng rest hs hc hf h
        refine ⟨h1, ⟨rfl, ?_, rfl⟩, ⟨h5, ?_, ?_⟩, ?_⟩
        · rcases hobs with ⟨heq, rfl⟩ | ⟨-, hlen⟩
          · simp only [heq]
            exact h3
          · exact hlen
        · simp only [List.length_cons, h6]
          omega
        · show (s.score + 10) % 10 = 0
          omega
        · intro _
          refine ⟨candidate s head, head, tl, ?_, ?_⟩
          · simp only [hs]
          · exact dir_eq_sub (commitDir s).dir head
      · rw [step_move_shape s head tl rng hs hc hf] at h
        simp only [Except.ok.injEq, Prod.mk.injEq] at h
        obtain ⟨rfl, -⟩ := h
        have hg0 : ¬ s.grow > 0 := by rw [h5]; exact lt_irrefl 0
        rw [if_neg hg0]
        have hlen : tl.length = 2 + s.score / 10 := by
          rw [hs, List.length_cons] at h6
          omega
        cases tl with
        | nil => simp at hlen; omega
        | cons neck tl2 =>
          refine ⟨h1, ⟨h2, h3, h4⟩, ⟨h5, ?_, h8⟩, ?_⟩
          · simp only [hs, List.dropLast_cons₂, List.length_cons, List.length_dropLast] at h6 ⊢
            omega
          · intro _
            refine ⟨candidate s head, head, (neck :: tl2).dropLast, ?_, ?_⟩
            · simp only [hs, List.dropLast_cons₂]
            · exact dir_eq_sub (commitDir s).dir head

theorem run_gameInv (op : Op) (s t : State) (rng rest : List Draw) (hi : GameInv s)
    (h : op.run s rng = .ok (t, rest)) : GameInv t := by
  cases op with
  | step => exact step_gameInv s t rng rest hi h
  | tick dt => exact tickFoodTimer_gameInv dt s t rng rest hi h
  | togglePause force =>
    simp only [Op.run, Except.ok.injEq, Prod.mk.injEq] at h
    obtain ⟨rfl, -⟩ := h
    exact togglePause_gameInv force s hi
  | key k => exact keydown_gameInv k s t rng rest hi h

theorem reachable_gameInv (s : State) (h : Reachable s) : GameInv s := by
  induction h with
  | init rng rest s hnew => exact newGame_gameInv s rng rest hnew
  | next op rng rest s t _ hrun ih => exact run_gameInv op s t rng rest ih hrun

/-- Running operations from a reachable state stays among the reachable states. -/
theorem reachable_runOps (ops : List (Op × List Draw)) (s t : State) (hs : Reachable s)
    (h : runOps ops s = some t) : Reachable t := by
  induction ops generalizing s with
  | nil =>
    simp only [runOps, Option.some.injEq] at h
    exact h ▸ hs
  | cons o more ih =>
    obtain ⟨op, rng⟩ := o
    simp only [runOps] at h
    split at h
    · simp at h
    · rename_i u rest hrun
      exact ih u (Reachable.next op rng rest s u hs hrun) h

/-! ## The loop driver -/

/-- A frame that starts paused or not playing only records its time stamp. -/
theorem loop_idle (ts : ℚ) (g : Driver) (rng : List Draw)
    (h : g.state.paused = true ∨ g.state.playing = false) :
    loop ts g rng = .ok ({ g with lastTime := ts }, rng) := by
  have hb : ¬ (!g.state.paused && g.state.playing) = true := by
    rcases h with h | h <;> simp [h]
  unfold loop
  simp only
  rw [if_neg hb]

/-- A frame that starts playing and not paused is the steps of the frame
followed by the tick of the food timer on the record the steps left. -/
theorem loop_playing (ts : ℚ) (g : Driver) (rng : List Draw)
    (hp : g.state.paused = false) (hpl : g.state.playing = true) :
    loop ts g rng =
      match frameSteps (frameDt ts g) { g with lastTime := ts } rng with
      | .error e => .error e
      | .ok (g2, rest) =>
        match tickFoodTimer (frameDt ts g) g2.state rest with
        | .error e => .error e
        | .ok (s, rest2) => .ok ({ g2 with state := s }, rest2) := by
  have hb : (!g.state.paused && g.state.playing) = true := by simp [hp, hpl]
  unfold loop
  simp only
  rw [if_pos hb]

/-- A playing frame whose steps and whose tick return, returns the record the
tick left, with the counters the steps left. -/
theorem loop_playing_eval (ts : ℚ) (g g2 : Driver) (s : State) (rng rest1 rest2 : List Draw)
    (hp : g.state.paused = false) (hpl : g.state.playing = true)
    (hsteps : frameSteps (frameDt ts g) { g with lastTime := ts } rng = .ok (g2, rest1))
    (htick : tickFoodTimer (frameDt ts g) g2.state rest1 = .ok (s, rest2)) :
    loop ts g rng = .ok ({ g2 with state := s }, rest2) := by
  rw [loop_playing ts g rng hp hpl, hsteps]
  simp only [htick]

/-- The step loop makes no pass when the accumulator is below the step time. -/
theorem whileSteps_none (stepTime : ℚ) (g : Driver) (rng : List Draw)
    (h : g.accumulator < stepTime) : whileSteps stepTime g rng = .ok (g, rng) := by
  rw [whileSteps, dif_neg]
  rintro ⟨-, hge⟩
  exact absurd h (not_lt.2 hge)

/-- One pass of the step loop: the step, the rounded subtraction, the count,
and then the loop again. -/
theorem whileSteps_pass (stepTime : ℚ) (g : Driver) (rng rest : List Draw) (s : State)
    (hpos : 0 < stepTime) (hge : stepTime ≤ g.accumulator)
    (hstep : step g.state rng = .ok (s, rest))
    (hprog : toDouble (g.accumulator - stepTime) < g.accumulator) :
    whileSteps stepTime g rng =
      whileSteps stepTime
        { g with state := s, accumulator := toDouble (g.accumulator - stepTime),
                 stepCalls := g.stepCalls + 1 } rest := by
  rw [whileSteps, dif_pos ⟨hpos, hge⟩]
  simp only [hstep]
  rw [dif_pos hprog]

theorem commitDir_idem (s : State) : commitDir (commitDir s) = commitDir s := by
  by_cases hb : (!(s.nextDir.x == -s.dir.x && s.nextDir.y == -s.dir.y)) = true
  · have h1 : commitDir s = { s with dir := s.nextDir } := by
      simp only [commitDir]
      rw [if_pos hb]
    rw [h1]
    simp only [commitDir]
    split <;> rfl
  · have h1 : commitDir s = s := by
      simp only [commitDir]
      rw [if_neg hb]
    rw [h1, h1]

theorem commitDir_gameOver (s : State) : commitDir (gameOver s) = gameOver (commitDir s) := by
  simp only [commitDir, gameOver]
  split <;> rfl

/-- A call of `step()` on the record that a colliding step left collides again
and leaves the record as it is. -/
theorem step_again_after_collision (s : State) (head : Cell) (tl : List Cell)
    (rng : List Draw) (hs : s.snake = head :: tl) (hc : Collides s (candidate s head)) :
    step (gameOver (commitDir s)) rng = .ok (gameOver (commitDir s), rng) := by
  have hcd : commitDir (gameOver (commitDir s)) = gameOver (commitDir s) := by
    rw [commitDir_gameOver, commitDir_idem]
  have hsn : (gameOver (commitDir s)).snake = head :: tl := by
    show (commitDir s).snake = head :: tl
    rw [commitDir_snake, hs]
  have hcand : candidate (gameOver (commitDir s)) head = candidate s head := by
    simp only [candidate, hcd]
    rfl
  have hc2 : Collides (gameOver (commitDir s)) (candidate (gameOver (commitDir s)) head) := by
    rw [hcand]
    unfold Collides at hc ⊢
    have ho : (gameOver (commitDir s)).obstacles = s.obstacles := commitDir_obstacles s
    have hn : (gameOver (commitDir s)).snake = s.snake := commitDir_snake s
    rw [ho, hn]
    exact hc
  rw [step_collision (gameOver (commitDir s)) head tl rng hsn hc2, hcd]
  rfl

theorem toDouble_quarter : toDouble (1 / 4) = 1 / 4 :=
  toDouble_fixed (1 / 4) 1 (-2) (by norm_num) (by decide) (by decide)

theorem toDouble_eighth : toDouble (1 / 8) = 1 / 8 :=
  toDouble_fixed (1 / 8) 1 (-3) (by norm_num) (by decide) (by decide)

/-- The elapsed time of the frame at 250 ms of `wallDriver` is a quarter of a
second. -/
theorem frameDt_wallDriver : frameDt 250 wallDriver = 1 / 4 := by
  have h250 : toDouble (250 - wallDriver.lastTime) = 250 := by
    have h : (250 : ℚ) - wallDriver.lastTime = ((250 : Int) : ℚ) := by
      norm_num [wallDriver]
    rw [h, toDouble_intCast 250 (by decide)]
    norm_num
  unfold frameDt
  rw [h250]
  have h4 : (250 : ℚ) / 1000 = 1 / 4 := by norm_num
  rw [h4, toDouble_quarter]

/-- The steps of the frame at 250 ms of `wallDriver`: the step time is 1/8 s,
the accumulator reaches 1/4 s, and the step loop makes two passes. -/
theorem frameSteps_wallDriver :
    frameSteps (1 / 4) { wallDriver with lastTime := 250 } [] =
      .ok ({ state := gameOver atRightWall, lastTime := 250, accumulator := 0,
             stepCalls := 2 }, []) := by
  have h1 : step atRightWall [] = .ok (gameOver atRightWall, []) := rfl
  have h2 : step (gameOver atRightWall) [] = .ok (gameOver atRightWall, []) := rfl
  have hst : stepTimeOf (speedFor atRightWall.level) = some (1 / 8) := by
    have h : stepTimeOf (speedFor atRightWall.level) = some (toDouble (1 / ((8 : ℕ) : ℚ))) := rfl
    rw [h]
    have h8 : (1 : ℚ) / ((8 : ℕ) : ℚ) = 1 / 8 := by norm_num
    rw [h8, toDouble_eighth]
  have hacc : toDouble ((0 : ℚ) + 1 / 4) = 1 / 4 := by
    rw [zero_add, toDouble_quarter]
  have hsub1 : toDouble ((1 / 4 : ℚ) - 1 / 8) = 1 / 8 := by
    have h : (1 / 4 : ℚ) - 1 / 8 = 1 / 8 := by norm_num
    rw [h, toDouble_eighth]
  have hsub2 : toDouble ((1 / 8 : ℚ) - 1 / 8) = 0 := by
    rw [sub_self, toDouble_zero]
  have hw : whileSteps (1 / 8)
      { state := atRightWall, lastTime := 250, accumulator := 1 / 4, stepCalls := 0 } [] =
      .ok ({ state := gameOver atRightWall, lastTime := 250, accumulator := 0,
             stepCalls := 2 }, []) := by
    rw [whileSteps_pass (1 / 8) _ [] [] (gameOver atRightWall) (by norm_num) (by norm_num) h1
      (by rw [hsub1]; norm_num)]
    simp only [hsub1]
    rw [whileSteps_pass (1 / 8) _ [] [] (gameOver atRightWall) (by norm_num) (by norm_num) h2
      (by rw [hsub2]; norm_num)]
    simp only [hsub2]
    rw [whileSteps_none (1 / 8) _ [] (by norm_num)]
  unfold frameSteps
  simp only [wallDriver, hst, hacc]
  exact hw

/-- The tick of a quarter of a second on the game that is over at the wall. -/
theorem tickFoodTimer_wall :
    tickFoodTimer (1 / 4) (gameOver atRightWall) [] =
      .ok ({ gameOver atRightWall with foodTimer := 31 / 4 }, []) := by
  have h8 : toDouble ((gameOver atRightWall).foodTimer - 1 / 4) = 31 / 4 := by
    have h : (gameOver atRightWall).foodTimer - 1 / 4 = (31 / 4 : ℚ) := by
      norm_num [gameOver, atRightWall, initialRecord]
    rw [h]
    exact toDouble_fixed (31 / 4) 31 (-2) (by norm_num) (by decide) (by decide)
  simp only [tickFoodTimer, h8]
  norm_num

/-- The frame at 250 ms of the driver at the right wall: two passes of the
step loop, then the tick. -/
theorem loop_wallDriver : loop 250 wallDriver [] = .ok (wallDriverAfter, []) :=
  loop_playing_eval 250 wallDriver _ _ [] [] [] rfl rfl
    (by rw [frameDt_wallDriver]; exact frameSteps_wallDriver)
    (by rw [frameDt_wallDriver]; exact tickFoodTimer_wall)

/-- A step leaves both flags as they were or ends the game. -/
theorem step_flags (s t : State) (rng rest : List Draw) (h : step s rng = .ok (t, rest)) :
    (t.playing = s.playing ∧ t.over = s.over) ∨ (t.playing = false ∧ t.over = true) := by
  cases hs : s.snake with
  | nil => rw [step_empty s rng hs] at h; simp at h
  | cons head tl =>
    by_cases hc : Collides s (candidate s head)
    · rw [step_collision_shape s head tl rng hs hc] at h
      simp only [Except.ok.injEq, Prod.mk.injEq] at h
      obtain ⟨rfl, -⟩ := h
      exact Or.inr ⟨rfl, rfl⟩
    · by_cases hf : candidate s head = s.food
      · obtain ⟨obs, c, rfl, -⟩ := step_eat_shape s t head tl rng rest hs hc hf h
        exact Or.inl ⟨rfl, rfl⟩
      · rw [step_move_shape s head tl rng hs hc hf] at h
        simp only [Except.ok.injEq, Prod.mk.injEq] at h
        obtain ⟨rfl, -⟩ := h
        split <;> exact Or.inl ⟨rfl, rfl⟩

/-- The rounded inverse of a speed of at most 32 cells per second is positive. -/
theorem toDouble_one_div_pos (v : Nat) (h0 : 0 < v) (h32 : v ≤ 32) :
    0 < toDouble (1 / (v : ℚ)) := by
  apply toDouble_pos
  have hv : (0 : ℚ) < (v : ℚ) := Nat.cast_pos.2 h0
  have hv32 : (v : ℚ) ≤ 32 := by exact_mod_cast h32
  have h1 : (2 : ℚ) ^ (-1074 : Int) ≤ (2 : ℚ) ^ (-5 : Int) :=
    zpow_le_zpow_right₀ (by norm_num) (by decide)
  have h2 : (2 : ℚ) ^ (-5 : Int) = 1 / 32 := by norm_num
  have h3 : (1 : ℚ) / 32 ≤ 1 / (v : ℚ) := one_div_le_one_div_of_le hv hv32
  rw [h2] at h1
  exact le_trans h1 h3

/-- The speed table has an entry, a positive one, for each of the levels 1 to
10, and the step time is its rounded inverse, a positive number. -/
theorem speedFor_of_bounds (L : Int) (h1 : 1 ≤ L) (h10 : L ≤ 10) :
    ∃ v : Nat, speedFor L = some v ∧ 0 < v ∧
      stepTimeOf (speedFor L) = some (toDouble (1 / (v : ℚ))) ∧
      0 < toDouble (1 / (v : ℚ)) := by
  interval_cases L
  · exact ⟨8, rfl, by decide, rfl, toDouble_one_div_pos 8 (by decide) (by decide)⟩
  · exact ⟨8, rfl, by decide, rfl, toDouble_one_div_pos 8 (by decide) (by decide)⟩
  · exact ⟨10, rfl, by decide, rfl, toDouble_one_div_pos 10 (by decide) (by decide)⟩
  · exact ⟨10, rfl, by decide, rfl, toDouble_one_div_pos 10 (by decide) (by decide)⟩
  · exact ⟨14, rfl, by decide, rfl, toDouble_one_div_pos 14 (by decide) (by decide)⟩
  · exact ⟨14, rfl, by decide, rfl, toDouble_one_div_pos 14 (by decide) (by decide)⟩
  · exact ⟨16, rfl, by decide, rfl, toDouble_one_div_pos 16 (by decide) (by decide)⟩
  · exact ⟨16, rfl, by decide, rfl, toDouble_one_div_pos 16 (by decide) (by decide)⟩
  · exact ⟨18, rfl, by decide, rfl, toDouble_one_div_pos 18 (by decide) (by decide)⟩
  · exact ⟨20, rfl, by decide, rfl, toDouble_one_div_pos 20 (by decide) (by decide)⟩

/-! ## The tick of the food timer -/

/-- A tick that leaves a positive timer stores the rounded difference and
changes nothing else. -/
theorem tickFoodTimer_keep (s : State) (dt : ℚ) (rng : List Draw)
    (h : 0 < toDouble (s.foodTimer - dt)) :
    tickFoodTimer dt s rng = .ok ({ s with foodTimer := toDouble (s.foodTimer - dt) }, rng) := by
  simp only [tickFoodTimer]
  rw [if_neg (not_le.2 h)]

/-- A tick that does not leave a positive timer is `placeFood()` on the record
with the rounded difference stored. -/
theorem tickFoodTimer_expired (s : State) (dt : ℚ) (rng : List Draw)
    (h : toDouble (s.foodTimer - dt) ≤ 0) :
    tickFoodTimer dt s rng =
      placeFood { s with foodTimer := toDouble (s.foodTimer - dt) } rng := by
  simp only [tickFoodTimer]
  rw [if_pos h]

/-- A tick that does not leave a positive timer and whose first draw is a free
cell puts the food on that cell and sets the timer anew. -/
theorem tickFoodTimer_expired_first (s : State) (dt : ℚ) (d : Draw) (rest : List Draw)
    (h : toDouble (s.foodTimer - dt) ≤ 0)
    (h1 : randomCell d ∉ s.snake) (h2 : randomCell d ∉ s.obstacles) :
    tickFoodTimer dt s (d :: rest) =
      .ok ({ s with food := randomCell d, foodTTL := foodTTL s.level,
                    foodTimer := ((foodTTL s.level : Int) : ℚ) }, rest) := by
  rw [tickFoodTimer_expired s dt (d :: rest) h]
  unfold placeFood
  rw [freeRandomCell_first { s with foodTimer := toDouble (s.foodTimer - dt) } d rest h1 h2]
  rfl

/-- The food lifetime of a level is a positive number of seconds. -/
theorem foodTTL_cast_pos (level : Int) : (0 : ℚ) < ((foodTTL level : Int) : ℚ) := by
  have h3 : (3 : Int) ≤ foodTTL level := le_max_left 3 (9 - level)
  have h3q : ((3 : Int) : ℚ) ≤ ((foodTTL level : Int) : ℚ) := Int.cast_le.2 h3
  have h0 : (0 : ℚ) < ((3 : Int) : ℚ) := by norm_num
  exact lt_of_lt_of_le h0 h3q

/-! ## The model on inputs where rounding shows -/

/-- The binary64 number 0.1. -/
theorem toDouble_tenth : toDouble (1 / 10) = 7205759403792794 / 72057594037927936 := by
  rw [toDouble_eval (1 / 10) (-4) 7205759403792794 (by norm_num) (by norm_num) (by decide)
    (roundHalfEven_up _ 7205759403792793 (by norm_num) (by norm_num))]
  norm_num

/-- An operation that returns is followed by the operations that remain. -/
theorem runOps_cons (op : Op) (rng rest : List Draw) (more : List (Op × List Draw))
    (s t : State) (h : op.run s rng = .ok (t, rest)) :
    runOps ((op, rng) :: more) s = runOps more t := by
  simp only [runOps, h]

/-- A tick that leaves the positive rounded difference `v`. -/
theorem tickFoodTimer_value (s : State) (dt v : ℚ) (hv : toDouble (s.foodTimer - dt) = v)
    (hpos : 0 < v) : (Op.tick dt).run s [] = .ok ({ s with foodTimer := v }, []) := by
  show tickFoodTimer dt s [] = _
  rw [tickFoodTimer_keep s dt [] (by rw [hv]; exact hpos), hv]

/-- Five ticks of the binary64 number 0.1 on a food timer of half a second
leave `2^-55` seconds on it and the food where it was: the fifth tick does not
re-place the food, although five tenths are a half. -/
theorem five_ticks_of_a_tenth :
    runOps (List.replicate 5 (Op.tick (toDouble (1 / 10)), [])) halfSecondLeft
      = some afterFiveTenths ∧
    afterFiveTenths.food = halfSecondLeft.food ∧ 0 < afterFiveTenths.foodTimer ∧
    (1 / 2 : ℚ) - 5 * (1 / 10) = 0 := by
  have h1 : toDouble ((1 / 2 : ℚ) - 7205759403792794 / 72057594037927936)
      = 7205759403792794 / 18014398509481984 := by
    rw [toDouble_eval _ (-2) 7205759403792794 (by norm_num) (by norm_num) (by decide)
      (roundHalfEven_tie_odd _ 7205759403792793 (by norm_num) (by decide))]
    norm_num
  have h2 : toDouble ((7205759403792794 / 18014398509481984 : ℚ)
      - 7205759403792794 / 72057594037927936) = 5404319552844596 / 18014398509481984 := by
    rw [toDouble_eval _ (-2) 5404319552844596 (by norm_num) (by norm_num) (by decide)
      (roundHalfEven_tie_odd _ 5404319552844595 (by norm_num) (by decide))]
    norm_num
  have h3 : toDouble ((5404319552844596 / 18014398509481984 : ℚ)
      - 7205759403792794 / 72057594037927936) = 7205759403792795 / 36028797018963968 := by
    rw [toDouble_eval _ (-3) 7205759403792795 (by norm_num) (by norm_num) (by decide)
      (roundHalfEven_down _ 7205759403792795 (by norm_num) (by norm_num))]
    norm_num
  have h4 : toDouble ((7205759403792795 / 36028797018963968 : ℚ)
      - 7205759403792794 / 72057594037927936) = 7205759403792796 / 72057594037927936 := by
    rw [toDouble_eval _ (-4) 7205759403792796 (by norm_num) (by norm_num) (by decide)
      (roundHalfEven_down _ 7205759403792796 (by norm_num) (by norm_num))]
    norm_num
  have h5 : toDouble ((7205759403792796 / 72057594037927936 : ℚ)
      - 7205759403792794 / 72057594037927936) = 1 / 36028797018963968 := by
    have h : (7205759403792796 / 72057594037927936 : ℚ)
        - 7205759403792794 / 72057594037927936 = 1 / 36028797018963968 := by norm_num
    rw [h]
    exact toDouble_fixed _ 1 (-55) (by norm_num) (by decide) (by decide)
  refine ⟨?_, rfl, by norm_num [afterFiveTenths], by norm_num⟩
  rw [toDouble_tenth]
  have e1 := tickFoodTimer_value halfSecondLeft _ _ h1 (by norm_num)
  have e2 := tickFoodTimer_value { halfSecondLeft with
    foodTimer := 7205759403792794 / 18014398509481984 } _ _ h2 (by norm_num)
  have e3 := tickFoodTimer_value { halfSecondLeft with
    foodTimer := 5404319552844596 / 18014398509481984 } _ _ h3 (by norm_num)
  have e4 := tickFoodTimer_value { halfSecondLeft with
    foodTimer := 7205759403792795 / 36028797018963968 } _ _ h4 (by norm_num)
  have e5 := tickFoodTimer_value { halfSecondLeft with
    foodTimer := 7205759403792796 / 72057594037927936 } _ _ h5 (by norm_num)
  show runOps [_, _, _, _, _] halfSecondLeft = some afterFiveTenths
  rw [runOps_cons _ _ _ _ _ _ e1, runOps_cons _ _ _ _ _ _ e2, runOps_cons _ _ _ _ _ _ e3,
    runOps_cons _ _ _ _ _ _ e4, runOps_cons _ _ _ _ _ _ e5]
  rfl

/-- The binary64 number 0.3, the elapsed time of a frame of 300 ms. -/
theorem frameDt_levelThreeDriver :
    frameDt 300 levelThreeDriver = 5404319552844595 / 18014398509481984 := by
  have h300 : toDouble (300 - levelThreeDriver.lastTime) = 300 := by
    have h : (300 : ℚ) - levelThreeDriver.lastTime = ((300 : Int) : ℚ) := by
      norm_num [levelThreeDriver]
    rw [h, toDouble_intCast 300 (by decide)]
    norm_num
  unfold frameDt
  rw [h300]
  rw [toDouble_eval (300 / 1000) (-2) 5404319552844595 (by norm_num) (by norm_num) (by decide)
    (roundHalfEven_down _ 5404319552844595 (by norm_num) (by norm_num))]
  norm_num

/-- The steps of the frame of 300 ms at 10 cells per second: the accumulator
goes from 0.3 to 0.19999999999999998 and to 0.09999999999999998, which is
below the step time 0.1, so the step loop makes two passes, not three. -/
theorem frameSteps_levelThreeDriver :
    frameSteps (5404319552844595 / 18014398509481984)
        { levelThreeDriver with lastTime := 300 } [] =
      .ok ({ state := levelThreeTwoSteps, lastTime := 300,
             accumulator := 900719925474099 / 9007199254740992, stepCalls := 2 }, []) := by
  have h1 : step levelThree [] = .ok (levelThreeOneStep, []) := rfl
  have h2 : step levelThreeOneStep [] = .ok (levelThreeTwoSteps, []) := rfl
  have hst : stepTimeOf (speedFor levelThree.level)
      = some (7205759403792794 / 72057594037927936) := by
    have h : stepTimeOf (speedFor levelThree.level)
        = some (toDouble (1 / ((10 : ℕ) : ℚ))) := rfl
    rw [h]
    have h10 : (1 : ℚ) / ((10 : ℕ) : ℚ) = 1 / 10 := by norm_num
    rw [h10, toDouble_tenth]
  have hacc : toDouble ((0 : ℚ) + 5404319552844595 / 18014398509481984)
      = 5404319552844595 / 18014398509481984 := by
    rw [zero_add]
    exact toDouble_fixed _ 5404319552844595 (-54) (by norm_num) (by decide) (by decide)
  have hsub1 : toDouble ((5404319552844595 / 18014398509481984 : ℚ)
      - 7205759403792794 / 72057594037927936) = 7205759403792793 / 36028797018963968 := by
    rw [toDouble_eval _ (-3) 7205759403792793 (by norm_num) (by norm_num) (by decide)
      (roundHalfEven_down _ 7205759403792793 (by norm_num) (by norm_num))]
    norm_num
  have hsub2 : toDouble ((7205759403792793 / 36028797018963968 : ℚ)
      - 7205759403792794 / 72057594037927936) = 900719925474099 / 9007199254740992 := by
    have h : (7205759403792793 / 36028797018963968 : ℚ)
        - 7205759403792794 / 72057594037927936 = 900719925474099 / 9007199254740992 := by
      norm_num
    rw [h]
    exact toDouble_fixed _ 900719925474099 (-53) (by norm_num) (by decide) (by decide)
  have hw : whileSteps (7205759403792794 / 72057594037927936)
      { state := levelThree, lastTime := 300,
        accumulator := 5404319552844595 / 18014398509481984, stepCalls := 0 } [] =
      .ok ({ state := levelThreeTwoSteps, lastTime := 300,
             accumulator := 900719925474099 / 9007199254740992, stepCalls := 2 }, []) := by
    rw [whileSteps_pass _ _ [] [] levelThreeOneStep (by norm_num) (by norm_num) h1
      (by rw [hsub1]; norm_num)]
    simp only [hsub1]
    rw [whileSteps_pass _ _ [] [] levelThreeTwoSteps (by norm_num) (by norm_num) h2
      (by rw [hsub2]; norm_num)]
    simp only [hsub2]
    rw [whileSteps_none _ _ [] (by norm_num)]
  unfold frameSteps
  simp only [levelThreeDriver, hst, hacc]
  exact hw

/-- The tick of the binary64 number 0.3 on a food timer of 6 seconds. -/
theorem tickFoodTimer_levelThree :
    tickFoodTimer (5404319552844595 / 18014398509481984) levelThreeTwoSteps [] =
      .ok ({ levelThreeTwoSteps with
             foodTimer := 6417629469002957 / 1125899906842624 }, []) := by
  have h6 : toDouble (levelThreeTwoSteps.foodTimer - 5404319552844595 / 18014398509481984)
      = 6417629469002957 / 1125899906842624 := by
    have h : levelThreeTwoSteps.foodTimer = 6 := rfl
    rw [h, toDouble_eval _ 2 6417629469002957 (by norm_num) (by norm_num) (by decide)
      (roundHalfEven_up _ 6417629469002956 (by norm_num) (by norm_num))]
    norm_num
  rw [tickFoodTimer_keep _ _ [] (by rw [h6]; norm_num), h6]

/-- A frame of 300 ms at 10 cells per second runs two steps, as the source does
in binary64 arithmetic, although three tenths are three times a tenth. -/
theorem loop_levelThreeDriver :
    loop 300 levelThreeDriver [] = .ok (levelThreeDriverAfter, []) ∧
    levelThreeDriverAfter.stepCalls = 2 ∧ (300 / 1000 : ℚ) / (1 / 10) = 3 :=
  ⟨loop_playing_eval 300 levelThreeDriver _ _ [] [] [] rfl rfl
      (by rw [frameDt_levelThreeDriver]; exact frameSteps_levelThreeDriver)
      (by rw [frameDt_levelThreeDriver]; exact tickFoodTimer_levelThree),
    rfl, by norm_num⟩

/-! ## The claims, continued -/

/-- C11: for every integer level `L`, `foodTTL(L) = max(3, 9 - L)` and
`foodTTL(L) ≥ 3`; when `placeFood()` returns, `foodTTL` and `foodTimer` both
equal `max(3, 9 - level)` for the level of the record, which the call does not
change, and the new food cell is in the grid and is neither a snake cell nor
an obstacle cell; with room on the grid `placeFood()` returns for a suitable
draw. -/
theorem foodTTL_and_placeFood :
    (∀ L : Int, foodTTL L = max 3 (9 - L) ∧ 3 ≤ foodTTL L) ∧
    (∀ (s t : State) (rng rest : List Draw), placeFood s rng = .ok (t, rest) →
      t.foodTTL = max 3 (9 - t.level) ∧ t.foodTimer = ((max 3 (9 - t.level) : Int) : ℚ) ∧
      t.level = s.level ∧ InGrid t.food ∧ t.food ∉ t.snake ∧ t.food ∉ t.obstacles ∧
      t.snake = s.snake ∧ t.obstacles = s.obstacles) ∧
    (∀ s : State, s.snake.length + s.obstacles.length < GRID * GRID →
      ∃ d t, placeFood s [d] = .ok (t, [])) := by
  refine ⟨fun L => ⟨rfl, le_max_left 3 (9 - L)⟩, ?_, placeFood_returns⟩
  intro s t rng rest h
  obtain ⟨c, rfl, hcs, hco, hcg⟩ := placeFood_ok s t rng rest h
  exact ⟨rfl, rfl, rfl, hcg, hcs, hco, rfl, rfl⟩

/-- C11 at concrete inputs: `foodTTL` at levels 1, 6 and 20, and `placeFood()`
at level 2 with the draw `(2,2)`. -/
theorem foodTTL_and_placeFood_witness :
    foodTTL 1 = 8 ∧ foodTTL 6 = 3 ∧ foodTTL 20 = 3 ∧
    (∃ t, placeFood afterThirdFood [drawOf 2 2 (by decide) (by decide)] = .ok (t, []) ∧
      t.food = ⟨2, 2⟩ ∧ t.foodTTL = 7 ∧ t.foodTimer = 7 ∧ t.level = 2) ∧
    (∃ d t, placeFood afterThirdFood [d] = .ok (t, [])) :=
  have h := foodTTL_and_placeFood.2.1 afterThirdFood _
    [drawOf 2 2 (by decide) (by decide)] [] rfl
  ⟨(foodTTL_and_placeFood.1 1).1, (foodTTL_and_placeFood.1 6).1, (foodTTL_and_placeFood.1 20).1,
    ⟨_, rfl, rfl, h.1, h.2.1, h.2.2.1⟩,
    foodTTL_and_placeFood.2.2 afterThirdFood (by decide)⟩

/-- C12: for every record and every elapsed time `dt`, with `foodTimer - dt`
the binary64 difference that the code computes: if it is positive,
`tickFoodTimer(dt)` returns without drawing, stores it in `foodTimer` and
changes nothing else, the food cell included; if it is not positive, the tick
is `placeFood()`: the food goes to the cell that the free-cell search returns
on the draws (the first drawn cell when that one is free), a cell of the grid
that is neither a snake cell nor an obstacle cell, and `foodTimer` and
`foodTTL` become `foodTTL(level)`; after any tick that returns `foodTimer` is
strictly positive; with room on the grid the tick returns for a suitable draw.
For binary64 operands the rounded difference is positive exactly when the
exact one is. -/
theorem tickFoodTimer_cases :
    (∀ (s : State) (dt : ℚ) (rng : List Draw), 0 < toDouble (s.foodTimer - dt) →
      tickFoodTimer dt s rng =
        .ok ({ s with foodTimer := toDouble (s.foodTimer - dt) }, rng)) ∧
    (∀ (s : State) (dt : ℚ) (rng : List Draw), toDouble (s.foodTimer - dt) ≤ 0 →
      tickFoodTimer dt s rng =
        placeFood { s with foodTimer := toDouble (s.foodTimer - dt) } rng ∧
      ∀ (t : State) (rest : List Draw), tickFoodTimer dt s rng = .ok (t, rest) →
        ∃ c, freeRandomCell s rng = .ok (c, rest) ∧
          t = { s with food := c, foodTTL := foodTTL s.level,
                       foodTimer := ((foodTTL s.level : Int) : ℚ) } ∧
          InGrid c ∧ c ∉ s.snake ∧ c ∉ s.obstacles) ∧
    (∀ (s : State) (dt : ℚ) (d : Draw) (rest : List Draw),
      toDouble (s.foodTimer - dt) ≤ 0 →
      randomCell d ∉ s.snake → randomCell d ∉ s.obstacles →
      tickFoodTimer dt s (d :: rest) =
        .ok ({ s with food := randomCell d, foodTTL := foodTTL s.level,
                      foodTimer := ((foodTTL s.level : Int) : ℚ) }, rest)) ∧
    (∀ (s t : State) (dt : ℚ) (rng rest : List Draw),
      tickFoodTimer dt s rng = .ok (t, rest) → 0 < t.foodTimer) ∧
    (∀ (s : State) (dt : ℚ), s.snake.length + s.obstacles.length < GRID * GRID →
      ∃ rng t, tickFoodTimer dt s rng = .ok (t, [])) ∧
    (∀ (s : State) (dt : ℚ), toDouble s.foodTimer = s.foodTimer → toDouble dt = dt →
      (0 < toDouble (s.foodTimer - dt) ↔ 0 < s.foodTimer - dt)) := by
  refine ⟨tickFoodTimer_keep, ?_, tickFoodTimer_expired_first, ?_, ?_, ?_⟩
  · intro s dt rng hle
    refine ⟨tickFoodTimer_expired s dt rng hle, ?_⟩
    intro t rest h
    rcases tickFoodTimer_shape dt s t rng rest h with
      ⟨hpos, -, -⟩ | ⟨-, c, rfl, hfree, hcs, hco, hcg⟩
    · exact absurd hle (not_le.2 hpos)
    · exact ⟨c, hfree, rfl, hcg, hcs, hco⟩
  · intro s t dt rng rest h
    rcases tickFoodTimer_shape dt s t rng rest h with ⟨hpos, rfl, -⟩ | ⟨-, c, rfl, -⟩
    · exact hpos
    · exact foodTTL_cast_pos s.level
  · intro s dt hroom
    by_cases hpos : 0 < toDouble (s.foodTimer - dt)
    · exact ⟨[], _, tickFoodTimer_keep s dt [] hpos⟩
    · obtain ⟨d, t, hd⟩ :=
        placeFood_returns { s with foodTimer := toDouble (s.foodTimer - dt) } hroom
      refine ⟨[d], t, ?_⟩
      rw [tickFoodTimer_expired s dt [d] (not_lt.1 hpos)]
      exact hd
  · intro s dt hs hdt
    constructor
    · intro hpos
      by_contra hneg
      exact absurd hpos (not_lt.2 (toDouble_nonpos _ (not_lt.1 hneg)))
    · exact toDouble_sub_pos s.foodTimer dt hs hdt

/-- C12 at concrete inputs: half a second off a timer of 8 seconds leaves 7.5
seconds and the food at `(3,3)`; 8 seconds off it, with the draw `(1,1)`, move
the food from `(3,3)` to `(1,1)` and set the timer to 8 seconds again. -/
theorem tickFoodTimer_cases_witness :
    tickFoodTimer (1 / 2) plainMove [] = .ok (plainMoveHalfSecond, []) ∧
    plainMoveHalfSecond.foodTimer = 15 / 2 ∧ plainMoveHalfSecond.food = plainMove.food ∧
    tickFoodTimer 8 plainMove [drawOf 1 1 (by decide) (by decide)]
      = .ok (plainMoveNewFood, []) ∧
    plainMove.food = ⟨3, 3⟩ ∧ plainMoveNewFood.food = ⟨1, 1⟩ ∧
    plainMoveNewFood.foodTimer = 8 ∧ 0 < plainMoveNewFood.foodTimer ∧
    (∃ rng t, tickFoodTimer 8 plainMove rng = .ok (t, [])) :=
  have h8 : toDouble (plainMove.foodTimer - 8) = 0 := by
    have h : plainMove.foodTimer - 8 = 0 := by norm_num [plainMove, initialRecord]
    rw [h, toDouble_zero]
  have h12 : toDouble (plainMove.foodTimer - 1 / 2) = 15 / 2 := by
    have h : plainMove.foodTimer - 1 / 2 = (15 / 2 : ℚ) := by
      norm_num [plainMove, initialRecord]
    rw [h]
    exact toDouble_fixed (15 / 2) 15 (-1) (by norm_num) (by decide) (by decide)
  have hhalf : tickFoodTimer (1 / 2) plainMove [] = .ok (plainMoveHalfSecond, []) := by
    rw [tickFoodTimer_cases.1 plainMove (1 / 2) [] (by rw [h12]; norm_num), h12]
    rfl
  have htick : tickFoodTimer 8 plainMove [drawOf 1 1 (by decide) (by decide)]
      = .ok (plainMoveNewFood, []) :=
    tickFoodTimer_cases.2.2.1 plainMove 8 (drawOf 1 1 (by decide) (by decide)) []
      (le_of_eq h8) (by decide) (by decide)
  ⟨hhalf, rfl, rfl, htick, rfl, rfl, rfl,
    tickFoodTimer_cases.2.2.2.1 plainMove plainMoveNewFood 8
      [drawOf 1 1 (by decide) (by decide)] [] htick,
    tickFoodTimer_cases.2.2.2.2.1 plainMove 8 (by decide)⟩

/-- C13, the claim as written fails: in the frame at 1000 ms of a paused game
(`dt` is one second) `loop()` leaves the food timer at 8 seconds and the food
where it was, whereas `tickFoodTimer(1)` on the same record lowers the timer
to 7 seconds. -/
theorem loop_ticks_every_frame_counterexample :
    pausedDriver.state.paused = true ∧ frameDt 1000 pausedDriver = 1 ∧
    loop 1000 pausedDriver [] = .ok ({ pausedDriver with lastTime := 1000 }, []) ∧
    ({ pausedDriver with lastTime := 1000 } : Driver).state.foodTimer = 8 ∧
    ({ pausedDriver with lastTime := 1000 } : Driver).state.food = pausedDriver.state.food ∧
    tickFoodTimer 1 pausedDriver.state [] =
      .ok ({ pausedDriver.state with foodTimer := 7 }, []) ∧
    ({ pausedDriver.state with foodTimer := 7 } : State).foodTimer ≠ 8 := by
  have h7 : toDouble (pausedDriver.state.foodTimer - 1) = 7 := by
    have h : pausedDriver.state.foodTimer - 1 = ((7 : Int) : ℚ) := by
      norm_num [pausedDriver, plainMovePaused, plainMove, initialRecord]
    rw [h, toDouble_intCast 7 (by decide)]
    norm_num
  refine ⟨rfl, ?_, loop_idle 1000 pausedDriver [] (Or.inl rfl), rfl, rfl, ?_, ?_⟩
  · have h1000 : toDouble (1000 - pausedDriver.lastTime) = 1000 := by
      have h : (1000 : ℚ) - pausedDriver.lastTime = ((1000 : Int) : ℚ) := by
        norm_num [pausedDriver]
      rw [h, toDouble_intCast 1000 (by decide)]
      norm_num
    unfold frameDt
    rw [h1000]
    have h1 : (1000 : ℚ) / 1000 = ((1 : Int) : ℚ) := by norm_num
    rw [h1, toDouble_intCast 1 (by decide)]
    norm_num
  · rw [tickFoodTimer_keep pausedDriver.state 1 [] (by rw [h7]; norm_num), h7]
  · norm_num

/-- C13 as amended: `loop()` applies `tickFoodTimer(dt)` on exactly the frames
that start with the game playing and not paused.  On a frame that starts
paused or not playing it returns at once and changes nothing but `lastTime`,
so the food timer and the food stay as they were.  On a frame that starts
playing and not paused it is the steps of the frame followed by
`tickFoodTimer(dt)` on the record they left: when the steps return and the
timer stays positive, `loop()` returns with `foodTimer` lowered by `dt`; when
the timer does not stay positive and the next draw is a free cell, `loop()`
returns with the food on that cell and the timer set anew; and the steps
return at once when less than a step time has accumulated. -/
theorem loop_ticks_when_playing (ts : ℚ) (g : Driver) (rng : List Draw) :
    ((g.state.paused = true ∨ g.state.playing = false) →
      loop ts g rng = .ok ({ g with lastTime := ts }, rng)) ∧
    (g.state.paused = false → g.state.playing = true →
      loop ts g rng =
        match frameSteps (frameDt ts g) { g with lastTime := ts } rng with
        | .error e => .error e
        | .ok (g2, rest) =>
          match tickFoodTimer (frameDt ts g) g2.state rest with
          | .error e => .error e
          | .ok (s, rest2) => .ok ({ g2 with state := s }, rest2)) ∧
    (g.state.paused = false → g.state.playing = true →
      ∀ (g2 : Driver) (rest1 : List Draw),
      frameSteps (frameDt ts g) { g with lastTime := ts } rng = .ok (g2, rest1) →
      (0 < toDouble (g2.state.foodTimer - frameDt ts g) →
        loop ts g rng =
          .ok ({ g2 with state :=
                  { g2.state with
                    foodTimer := toDouble (g2.state.foodTimer - frameDt ts g) } }, rest1)) ∧
      (toDouble (g2.state.foodTimer - frameDt ts g) ≤ 0 →
        ∀ (d : Draw) (rest : List Draw), rest1 = d :: rest →
        randomCell d ∉ g2.state.snake → randomCell d ∉ g2.state.obstacles →
        loop ts g rng =
          .ok ({ g2 with state :=
                  { g2.state with
                    food := randomCell d, foodTTL := foodTTL g2.state.level,
                    foodTimer := ((foodTTL g2.state.level : Int) : ℚ) } }, rest))) ∧
    (∀ stepTime : ℚ, stepTimeOf (speedFor g.state.level) = some stepTime →
      toDouble (g.accumulator + frameDt ts g) < stepTime →
      frameSteps (frameDt ts g) { g with lastTime := ts } rng =
        .ok ({ g with lastTime := ts,
                      accumulator := toDouble (g.accumulator + frameDt ts g) }, rng)) := by
  refine ⟨loop_idle ts g rng, loop_playing ts g rng, ?_, ?_⟩
  · intro hp hpl g2 rest1 hsteps
    constructor
    · intro hpos
      exact loop_playing_eval ts g g2 _ rng rest1 rest1 hp hpl hsteps
        (tickFoodTimer_keep g2.state (frameDt ts g) rest1 hpos)
    · intro hle d rest hrest h1 h2
      subst hrest
      exact loop_playing_eval ts g g2 _ rng (d :: rest) rest hp hpl hsteps
        (tickFoodTimer_expired_first g2.state (frameDt ts g) d rest hle h1 h2)
  · intro stepTime hst hlt
    unfold frameSteps
    simp only [hst]
    exact whileSteps_none stepTime _ rng hlt

/-- C13 as amended, at concrete inputs: the paused frame changes only
`lastTime`; the frame at 250 ms of the playing game at the right wall runs
its steps and then ticks a quarter of a second off the food timer, 8 seconds
becoming 7.75. -/
theorem loop_ticks_when_playing_witness :
    loop 1000 pausedDriver [] = .ok ({ pausedDriver with lastTime := 1000 }, []) ∧
    wallDriver.state.paused = false ∧ wallDriver.state.playing = true ∧
    wallDriver.state.foodTimer = 8 ∧
    loop 250 wallDriver [] = .ok (wallDriverAfter, []) ∧
    wallDriverAfter.state.foodTimer = 31 / 4 :=
  have hsteps : frameSteps (frameDt 250 wallDriver) { wallDriver with lastTime := 250 } [] =
      .ok ({ state := gameOver atRightWall, lastTime := 250, accumulator := 0,
             stepCalls := 2 }, []) := by
    rw [frameDt_wallDriver]
    exact frameSteps_wallDriver
  have h8 : toDouble ((gameOver atRightWall).foodTimer - frameDt 250 wallDriver) = 31 / 4 := by
    have h : (gameOver atRightWall).foodTimer - 1 / 4 = (31 / 4 : ℚ) := by
      norm_num [gameOver, atRightWall, initialRecord]
    rw [frameDt_wallDriver, h]
    exact toDouble_fixed (31 / 4) 31 (-2) (by norm_num) (by decide) (by decide)
  have hloop : loop 250 wallDriver [] = .ok (wallDriverAfter, []) := by
    rw [((loop_ticks_when_playing 250 wallDriver []).2.2.1 rfl rfl _ [] hsteps).1
      (by rw [h8]; norm_num)]
    simp only [h8]
    rfl
  ⟨(loop_ticks_when_playing 1000 pausedDriver []).1 (Or.inl rfl), rfl, rfl, rfl, hloop, rfl⟩

/-- C14, evaluated where the code departs from the claim: the game at the
right wall is reachable; in its frame at 250 ms the step time is 1/8 s and the
accumulator reaches 1/4 s; the first `step()` of the frame ends the game
(`over = true`, `playing = false`), and the loop of line 227 calls `step()` a
second time in the same frame, on the game that is over (the second call
leaves the record as it is).  A later frame of the game that is over calls
`step()` no more. -/
theorem loop_steps_after_gameOver :
    Reachable atRightWall ∧
    step wallDriver.state [] = .ok (gameOver atRightWall, []) ∧
    (gameOver atRightWall).over = true ∧ (gameOver atRightWall).playing = false ∧
    step (gameOver atRightWall) [] = .ok (gameOver atRightWall, []) ∧
    loop 250 wallDriver [] = .ok (wallDriverAfter, []) ∧
    wallDriverAfter.stepCalls = wallDriver.stepCalls + 2 ∧
    loop 500 wallDriverAfter [] = .ok ({ wallDriverAfter with lastTime := 500 }, []) ∧
    ({ wallDriverAfter with lastTime := 500 } : Driver).stepCalls = wallDriverAfter.stepCalls := by
  refine ⟨?_, rfl, rfl, rfl, rfl, loop_wallDriver, rfl, loop_idle 500 wallDriverAfter []
    (Or.inr rfl), rfl⟩
  have h0 : Reachable plainMove :=
    Reachable.init [drawOf 3 3 (by decide) (by decide)] [] plainMove rfl
  exact reachable_runOps (List.replicate 14 (Op.step, [])) plainMove atRightWall h0 rfl

/-- C15: for every game record, calling `togglePause()` without argument twice
in a row gives the record back, `paused` and every other field as they were;
when the record is over each call leaves it as it is, and when it is not over
one call negates `paused` and changes nothing else. -/
theorem togglePause_twice :
    (∀ s : State, togglePause none (togglePause none s) = s) ∧
    (∀ s : State, s.over = true → togglePause none s = s) ∧
    (∀ s : State, s.over = false → togglePause none s = { s with paused := !s.paused }) := by
  refine ⟨?_, ?_, ?_⟩
  · intro s
    cases ho : s.over
    · have h1 : togglePause none s = { s with paused := !s.paused } := by
        simp only [togglePause, ho, Bool.false_eq_true, if_false]
      rw [h1]
      simp only [togglePause, ho, Bool.false_eq_true, if_false, Bool.not_not]
      cases s
      simp only at ho
      simp only [ho]
    · have h1 : togglePause none s = s := by
        simp only [togglePause, ho, if_true]
      rw [h1, h1]
  · intro s ho
    simp only [togglePause, ho, if_true]
  · intro s ho
    simp only [togglePause, ho, Bool.false_eq_true, if_false]

/-- C15 at concrete records: the playing game `plainMove` is paused by one call
and given back by two; the game that is over is left as it is. -/
theorem togglePause_twice_witness :
    (togglePause none plainMove).paused = true ∧
    togglePause none (togglePause none plainMove) = plainMove ∧
    togglePause none (gameOver atRightWall) = gameOver atRightWall :=
  ⟨congrArg State.paused (togglePause_twice.2.2 plainMove rfl),
   togglePause_twice.1 plainMove,
   togglePause_twice.2.1 (gameOver atRightWall) rfl⟩

/-- C16: in every state reachable from `newGame()` by any sequence of
`step()`, `tickFoodTimer`, `togglePause` and key inputs, `playing` is the
negation of `over`, so `over` implies not `playing`.  The flags are written
together: `tickFoodTimer`, `togglePause` and every key but `r` leave both as
they were, `step()` leaves both as they were or sets `playing = false` and
`over = true`, and a new game sets `playing = true` and `over = false`. -/
theorem flags_agree :
    (∀ s : State, Reachable s → s.playing = (!s.over) ∧ (s.over = true → s.playing = false)) ∧
    (∀ (op : Op) (s t : State) (rng rest : List Draw), op.run s rng = .ok (t, rest) →
      op ≠ Op.step → op ≠ Op.key Key.r → t.playing = s.playing ∧ t.over = s.over) ∧
    (∀ (s t : State) (rng rest : List Draw), step s rng = .ok (t, rest) →
      (t.playing = s.playing ∧ t.over = s.over) ∨ (t.playing = false ∧ t.over = true)) ∧
    (∀ (t : State) (rng rest : List Draw), newGame rng = .ok (t, rest) →
      t.playing = true ∧ t.over = false) := by
  refine ⟨?_, ?_, step_flags, ?_⟩
  · intro s hs
    have hf : s.playing = !s.over := (reachable_gameInv s hs).1
    refine ⟨hf, ?_⟩
    intro ho
    rw [hf, ho]
    rfl
  · intro op s t rng rest h hstep hr
    cases op with
    | step => exact absurd rfl hstep
    | tick dt =>
      rcases tickFoodTimer_shape dt s t rng rest h with ⟨-, rfl, -⟩ | ⟨-, c, rfl, -⟩
      · exact ⟨rfl, rfl⟩
      · exact ⟨rfl, rfl⟩
    | togglePause force =>
      simp only [Op.run, Except.ok.injEq, Prod.mk.injEq] at h
      obtain ⟨rfl, -⟩ := h
      obtain ⟨b, hb⟩ := togglePause_shape force s
      rw [hb]
      exact ⟨rfl, rfl⟩
    | key k =>
      cases k <;> simp only [Op.run, keydown, Except.ok.injEq, Prod.mk.injEq] at h
      case r => exact absurd rfl hr
      case p =>
        obtain ⟨rfl, -⟩ := h
        obtain ⟨b, hb⟩ := togglePause_shape none s
        rw [hb]
        exact ⟨rfl, rfl⟩
      all_goals
        obtain ⟨rfl, -⟩ := h
        exact ⟨rfl, rfl⟩
  · intro t rng rest h
    obtain ⟨c, rfl, -, -⟩ := newGame_shape t rng rest h
    exact ⟨rfl, rfl⟩

/-- C16 at concrete states: the reachable game that ran into the wall after
`edgeTurnOps` is over and not playing; the reachable fresh game is playing and
not over; the colliding step wrote both flags. -/
theorem flags_agree_witness :
    (edgeTurn.over = true ∧ edgeTurn.playing = false) ∧
    (freshCorner.playing = true ∧ freshCorner.over = false) ∧
    ((gameOver atRightWall).playing = false ∧ (gameOver atRightWall).over = true) :=
  have h0 : Reachable freshCorner :=
    Reachable.init [drawOf 19 19 (by decide) (by decide)] [] freshCorner rfl
  have h1 : Reachable edgeTurn := reachable_runOps edgeTurnOps freshCorner edgeTurn h0 rfl
  ⟨⟨rfl, (flags_agree.1 edgeTurn h1).2 rfl⟩,
   flags_agree.2.2.2 freshCorner [drawOf 19 19 (by decide) (by decide)] [] rfl,
   (flags_agree.2.2.1 atRightWall (gameOver atRightWall) [] [] rfl).resolve_left
     (by decide)⟩

/-- C17: in every state reachable from `newGame()`, the level is the function
`min(1 + floor(score/30), 10)` of the score, the number of obstacles is
`min(level - 1, 12)`, and `foodTTL = max(3, 9 - level)`. -/
theorem level_obstacles_ttl_of_score (s : State) (h : Reachable s) :
    s.level = min (1 + ((s.score / 30 : Nat) : Int)) 10 ∧
    (s.obstacles.length : Int) = min (s.level - 1) 12 ∧
    s.foodTTL = max 3 (9 - s.level) := by
  obtain ⟨-, ⟨h2, h3, h4⟩, -, -⟩ := reachable_gameInv s h
  have hb := newLevel_bounds s.score
  refine ⟨by rw [h2, newLevel_eq], ?_, h4⟩
  rw [h3]
  simp only [obstaclesFor]
  omega

/-- C17 at a concrete state: the reachable game after three foods has score
30, level 2, one obstacle and a food lifetime of 7 seconds. -/
theorem level_obstacles_ttl_of_score_witness :
    afterThirdFood.score = 30 ∧ afterThirdFood.level = 2 ∧
    (afterThirdFood.obstacles.length : Int) = 1 ∧ afterThirdFood.foodTTL = 7 :=
  have hr : Reachable afterThirdFood :=
    reachable_runOps
      [(Op.step, [drawOf 7 10 (by decide) (by decide)]),
       (Op.step, [drawOf 8 10 (by decide) (by decide)]),
       (Op.step, [drawOf 0 0 (by decide) (by decide), drawOf 1 1 (by decide) (by decide)])]
      freshAhead afterThirdFood
      (Reachable.init [drawOf 6 10 (by decide) (by decide)] [] freshAhead rfl) (by rfl)
  have h := level_obstacles_ttl_of_score afterThirdFood hr
  ⟨rfl, h.1, h.2.1, h.2.2⟩

/-- C18, the claim as written fails: after the keys and steps `edgeTurnOps` of
a fresh game the state is reachable, its head `(0,8)` is above its neck
`(0,9)`, so head minus neck is `(0,-1)`, and its heading is `(-1,0)`: the last
step committed the turn to the left and collided with the wall without moving
the snake. -/
theorem heading_is_head_minus_neck_counterexample :
    Reachable edgeTurn ∧ edgeTurn.snake = [⟨0, 8⟩, ⟨0, 9⟩, ⟨1, 9⟩] ∧
    edgeTurn.dir = ⟨-1, 0⟩ ∧ edgeTurn.over = true ∧ ¬ HeadingIsHeadMinusNeck edgeTurn := by
  have h0 : Reachable freshCorner :=
    Reachable.init [drawOf 19 19 (by decide) (by decide)] [] freshCorner rfl
  refine ⟨reachable_runOps edgeTurnOps freshCorner edgeTurn h0 rfl, rfl, rfl, rfl, ?_⟩
  rintro ⟨head, neck, tl, hs, hd⟩
  have hs2 : ([⟨0, 8⟩, ⟨0, 9⟩, ⟨1, 9⟩] : List Cell) = head :: neck :: tl := hs
  simp only [List.cons.injEq] at hs2
  obtain ⟨rfl, rfl, -⟩ := hs2
  have hd2 : (⟨-1, 0⟩ : Dir) = ⟨0 - 0, 8 - 9⟩ := hd
  simp at hd2

/-- C18 as amended: in every state reachable from `newGame()` in which the game
is not over, the heading is the head minus the neck, so the cell behind the
head is the neck, a body cell; the candidate head that `step()` computes after
the reversal guard is never the neck, while a move along a `nextDir` that is
the exact negation of `dir` would land on the neck. -/
theorem heading_while_not_over (s : State) (h : Reachable s) (ho : s.over = false) :
    ∃ head neck tl, s.snake = head :: neck :: tl ∧
      s.dir = ⟨head.x - neck.x, head.y - neck.y⟩ ∧
      (⟨head.x - s.dir.x, head.y - s.dir.y⟩ : Cell) = neck ∧ neck ∈ s.snake ∧
      candidate s head ≠ neck ∧
      (IsReverse s → (⟨head.x + s.nextDir.x, head.y + s.nextDir.y⟩ : Cell) = neck) := by
  obtain ⟨head, neck, tl, hs, hd⟩ := (reachable_gameInv s h).2.2.2 ho
  have hnd : s.snake.Nodup := (reachable_inv s h).1.1
  have hne : head ≠ neck := by
    rw [hs] at hnd
    intro heq
    rw [heq] at hnd
    exact (List.nodup_cons.1 hnd).1 (List.mem_cons_self neck tl)
  have hdx : s.dir.x = head.x - neck.x := by rw [hd]
  have hdy : s.dir.y = head.y - neck.y := by rw [hd]
  refine ⟨head, neck, tl, hs, hd, ?_, ?_, ?_, ?_⟩
  · cases neck
    simp only [Cell.mk.injEq] at hdx hdy ⊢
    constructor <;> omega
  · rw [hs]
    exact List.mem_cons_of_mem head (List.mem_cons_self neck tl)
  · intro hcand
    by_cases hrev : IsReverse s
    · have hcd := commitDir_dir_of_reverse s hrev
      apply hne
      cases head
      cases neck
      simp only [candidate, hcd, Cell.mk.injEq] at hcand hdx hdy ⊢
      constructor <;> omega
    · have hcd := commitDir_dir_of_not_reverse s hrev
      apply hrev
      cases head
      cases neck
      simp only [candidate, hcd, Cell.mk.injEq] at hcand hdx hdy
      constructor <;> omega
  · intro hrev
    obtain ⟨hrx, hry⟩ := hrev
    cases neck
    simp only [Cell.mk.injEq] at hdx hdy ⊢
    constructor <;> omega

/-- C18 as amended, at a concrete state: after the up key and one step of a
fresh game the head is `(5,9)`, the neck `(5,10)` and the heading `(0,-1)`. -/
theorem heading_while_not_over_witness :
    Reachable turnedUp ∧ turnedUp.over = false ∧
    ∃ head neck tl, turnedUp.snake = head :: neck :: tl ∧
      turnedUp.dir = ⟨head.x - neck.x, head.y - neck.y⟩ ∧
      (⟨head.x - turnedUp.dir.x, head.y - turnedUp.dir.y⟩ : Cell) = neck ∧
      neck ∈ turnedUp.snake ∧ candidate turnedUp head ≠ neck ∧
      (IsReverse turnedUp →
        (⟨head.x + turnedUp.nextDir.x, head.y + turnedUp.nextDir.y⟩ : Cell) = neck) :=
  have h0 : Reachable freshCorner :=
    Reachable.init [drawOf 19 19 (by decide) (by decide)] [] freshCorner rfl
  have h1 : Reachable turnedUp :=
    reachable_runOps [(Op.key Key.up, []), (Op.step, [])] freshCorner turnedUp h0 rfl
  ⟨h1, rfl, heading_while_not_over turnedUp h1 rfl⟩

/-- C19: in every state reachable from `newGame()`, in particular after every
completed `step()`, the grow counter is 0 and the snake has `3 + score/10`
cells, the score being a multiple of 10. -/
theorem grow_zero_length_of_score (s : State) (h : Reachable s) :
    s.grow = 0 ∧ s.snake.length = 3 + s.score / 10 ∧ s.score = 10 * (s.snake.length - 3) := by
  obtain ⟨-, -, ⟨h1, h2, h3⟩, -⟩ := reachable_gameInv s h
  refine ⟨h1, h2, ?_⟩
  omega

/-- C19 at a concrete state: the reachable game after three foods has no grow
credit, 6 cells and 30 points. -/
theorem grow_zero_length_of_score_witness :
    afterThirdFood.grow = 0 ∧ afterThirdFood.snake.length = 6 ∧ afterThirdFood.score = 30 :=
  have hr : Reachable afterThirdFood :=
    reachable_runOps
      [(Op.step, [drawOf 7 10 (by decide) (by decide)]),
       (Op.step, [drawOf 8 10 (by decide) (by decide)]),
       (Op.step, [drawOf 0 0 (by decide) (by decide), drawOf 1 1 (by decide) (by decide)])]
      freshAhead afterThirdFood
      (Reachable.init [drawOf 6 10 (by decide) (by decide)] [] freshAhead rfl) (by rfl)
  have h := grow_zero_length_of_score afterThirdFood hr
  ⟨h.1, h.2.1, h.2.2⟩

/-- C20: in every state reachable from `newGame()`, `1 ≤ level ≤ 10`; the index
`min(level-1, SPEEDS.length-1)` is a valid index of the 10-entry table
`SPEEDS`, the speed found there is positive and the step time, its inverse
rounded to binary64, is a positive number, as the exact inverse is; and there
are at most 9 obstacles, `obstaclesFor(level)` being `level - 1`, below the cap
of 12. -/
theorem level_between_one_and_ten (s : State) (h : Reachable s) :
    1 ≤ s.level ∧ s.level ≤ 10 ∧
    (0 ≤ min (s.level - 1) ((SPEEDS.length : Int) - 1) ∧
      min (s.level - 1) ((SPEEDS.length : Int) - 1) < (SPEEDS.length : Int)) ∧
    (∃ v : Nat, speedFor s.level = some v ∧ 0 < v ∧
      stepTimeOf (speedFor s.level) = some (toDouble (1 / (v : ℚ))) ∧
      (0 : ℚ) < 1 / (v : ℚ) ∧ 0 < toDouble (1 / (v : ℚ))) ∧
    s.obstacles.length ≤ 9 ∧ obstaclesFor s.level = s.level - 1 ∧ obstaclesFor s.level < 12 := by
  obtain ⟨-, ⟨h2, h3, -⟩, -, -⟩ := reachable_gameInv s h
  obtain ⟨hl, hu⟩ := newLevel_bounds s.score
  rw [← h2] at hl hu
  have hlen : (SPEEDS.length : Int) = 10 := rfl
  obtain ⟨v, hv1, hv2, hv3, hv4⟩ := speedFor_of_bounds s.level hl hu
  have hvq : (0 : ℚ) < (v : ℚ) := Nat.cast_pos.2 hv2
  refine ⟨hl, hu, ⟨?_, ?_⟩, ⟨v, hv1, hv2, hv3, one_div_pos.2 hvq, hv4⟩, ?_, ?_, ?_⟩
  · rw [hlen]
    omega
  · rw [hlen]
    omega
  · rw [h3]
    simp only [obstaclesFor]
    omega
  · simp only [obstaclesFor]
    omega
  · simp only [obstaclesFor]
    omega

/-- C20 at a concrete state: the reachable game after three foods is at level
2, where the speed is 8 cells per second and the step time 1/8 s, with one
obstacle. -/
theorem level_between_one_and_ten_witness :
    afterThirdFood.level = 2 ∧ speedFor afterThirdFood.level = some 8 ∧
    afterThirdFood.obstacles.length ≤ 9 ∧ obstaclesFor afterThirdFood.level < 12 ∧
    1 ≤ afterThirdFood.level ∧ afterThirdFood.level ≤ 10 :=
  have hr : Reachable afterThirdFood :=
    reachable_runOps
      [(Op.step, [drawOf 7 10 (by decide) (by decide)]),
       (Op.step, [drawOf 8 10 (by decide) (by decide)]),
       (Op.step, [drawOf 0 0 (by decide) (by decide), drawOf 1 1 (by decide) (by decide)])]
      freshAhead afterThirdFood
      (Reachable.init [drawOf 6 10 (by decide) (by decide)] [] freshAhead rfl) (by rfl)
  have h := level_between_one_and_ten afterThirdFood hr
  ⟨rfl, rfl, h.2.2.2.2.1, h.2.2.2.2.2.2, h.1, h.2.1⟩

end Juego2D
